import Mathlib

/-!
Shallow embedding of the Suzerainty plate-tectonics core
(`src/crates/soft_sphere` and `src/crates/suz_sim`).

Modelling conventions:
* `f32` scalars are modelled by an arbitrary `LinearOrderedField K` (instantiated
  with `ℚ` for executable witnesses and with `ℝ` where genuine square roots are
  needed).  `f32` has no `NaN`/`∞` in this model; every place where the source
  can produce or observe a non-finite value is either modelled explicitly
  (see `quotaExceeds`) or noted in the doc comment of the definition.
* Rust panics (`assert!`, `expect`, out-of-bounds indexing, `unwrap`) are
  modelled by `Option`: `none` means the run aborts.
* The transcendental functions `sqrt`, `acos`, `cos`, `sin` of `f32` are
  abstracted as the fields of `SphereOps`; theorems that need their defining
  properties take them as hypotheses.
-/

namespace Suz

set_option allowUnsafeReducibility true
attribute [local semireducible] Rat.mul Rat.add Rat.sub Rat.inv Rat.ofScientific

/-- Abstracted scalar functions of `f32` used by the source
(`f32::sqrt`, `f32::acos`, `f32::cos`, `f32::sin`) together with a value
standing in for `f32::NAN` (used only to initialise `Shape::new`; no theorem
depends on it). -/
structure SphereOps (K : Type) where
  sqrt : K → K
  acos : K → K
  cos : K → K
  sin : K → K
  nan : K

/-- glam `Vec3`. -/
structure Vec3 (K : Type) where
  x : K
  y : K
  z : K
deriving DecidableEq

/-- glam/bevy `Vec2`. -/
structure Vec2 (K : Type) where
  x : K
  y : K
deriving DecidableEq

variable {K : Type} [LinearOrderedField K]

instance : Add (Vec3 K) := ⟨fun a b => ⟨a.x + b.x, a.y + b.y, a.z + b.z⟩⟩

instance : Sub (Vec3 K) := ⟨fun a b => ⟨a.x - b.x, a.y - b.y, a.z - b.z⟩⟩

instance : Neg (Vec3 K) := ⟨fun a => ⟨-a.x, -a.y, -a.z⟩⟩

/-- `Vec3::ZERO`. -/
def Vec3.zero : Vec3 K := ⟨0, 0, 0⟩

/-- Scalar multiplication `c * v` of a glam vector. -/
def Vec3.smul (c : K) (v : Vec3 K) : Vec3 K := ⟨c * v.x, c * v.y, c * v.z⟩

/-- Componentwise division of a glam vector by a scalar (`v / c`). -/
def Vec3.sdiv (v : Vec3 K) (c : K) : Vec3 K := ⟨v.x / c, v.y / c, v.z / c⟩

/-- glam `Vec3::dot`. -/
def Vec3.dot (a b : Vec3 K) : K := a.x * b.x + a.y * b.y + a.z * b.z

/-- glam `Vec3::cross`. -/
def Vec3.cross (a b : Vec3 K) : Vec3 K :=
  ⟨a.y * b.z - a.z * b.y, a.z * b.x - a.x * b.z, a.x * b.y - a.y * b.x⟩

/-- glam `Vec3::length_squared`. -/
def Vec3.normSq (a : Vec3 K) : K := a.dot a

/-- glam `Vec3::length` = `sqrt (length_squared)`. -/
def Vec3.length (ops : SphereOps K) (a : Vec3 K) : K := ops.sqrt a.normSq

/-- glam `Vec3::normalize` = `self / self.length()`. -/
def Vec3.normalize (ops : SphereOps K) (a : Vec3 K) : Vec3 K := a.sdiv (a.length ops)

/-- `f32::clamp(lo, hi)` (for non-`NaN` input) = `min (max x lo) hi`. -/
def clampf (x lo hi : K) : K := min (max x lo) hi

/-- glam `Quat` (x, y, z, w). -/
structure Quat (K : Type) where
  x : K
  y : K
  z : K
  w : K
deriving DecidableEq

/-- glam `Quat::from_axis_angle`:
`(s, c) = sin_cos(angle * 0.5); Quat(axis.x * s, axis.y * s, axis.z * s, c)`. -/
def Quat.from_axis_angle (ops : SphereOps K) (axis : Vec3 K) (angle : K) : Quat K :=
  ⟨axis.x * ops.sin (angle / 2), axis.y * ops.sin (angle / 2),
   axis.z * ops.sin (angle / 2), ops.cos (angle / 2)⟩

/-- glam `Quat::mul_vec3`:
`let b = self.xyz(); rhs * (w*w - b.dot(b)) + b * (rhs.dot(b) * 2) + b.cross(rhs) * (w * 2)`. -/
def Quat.mul_vec3 (q : Quat K) (rhs : Vec3 K) : Vec3 K :=
  let w := q.w
  let b : Vec3 K := ⟨q.x, q.y, q.z⟩
  let b2 := b.dot b
  Vec3.smul (w * w - b2) rhs + Vec3.smul (rhs.dot b * 2) b + Vec3.smul (w * 2) (b.cross rhs)

/-! ## soft_sphere crate -/

/-- `soft_sphere::PointMass` (src/crates/soft_sphere/src/point_mass.rs). -/
structure PointMass (K : Type) where
  position : Vec3 K
  velocity : Vec3 K
  prev_force : Vec3 K
  force : Vec3 K
  mass : K
deriving DecidableEq

/-- `PointMass::new`. -/
def PointMass.new (position : Vec3 K) (mass : K) : PointMass K :=
  ⟨position, Vec3.zero, Vec3.zero, Vec3.zero, mass⟩

/-- `PointMass::geodesic_distance`:
`f32::acos(self.position.dot(other.position).clamp(-1., 1.))`. -/
def PointMass.geodesic_distance (ops : SphereOps K) (a other : PointMass K) : K :=
  ops.acos (clampf (a.position.dot other.position) (-1) 1)

/-- `soft_sphere::Spring` (src/crates/soft_sphere/src/spring.rs). -/
structure Spring (K : Type) where
  anchor_a : Nat
  anchor_b : Nat
  rest_length : K
  spring_constant : K
  damping_coefficient : K
deriving DecidableEq

/-- `point_masses[i].force += f` for a vector of point masses
(out of range leaves the list unchanged; the source only does this after
indexing the same positions, so the out-of-range case is unreachable there). -/
def addForceAt (l : List (PointMass K)) (i : Nat) (f : Vec3 K) : List (PointMass K) :=
  match l, i with
  | [], _ => []
  | pm :: rest, 0 => { pm with force := pm.force + f } :: rest
  | pm :: rest, n + 1 => pm :: addForceAt rest n f

/-- `Spring::apply_force` (src/crates/soft_sphere/src/spring.rs lines 15-38).
`none` models the panic of out-of-bounds `Vec` indexing. -/
def Spring.apply_force (ops : SphereOps K) (s : Spring K)
    (point_masses : List (PointMass K)) : Option (List (PointMass K)) :=
  match point_masses[s.anchor_a]?, point_masses[s.anchor_b]? with
  | some point_a, some point_b =>
    let distance := point_a.geodesic_distance ops point_b
    if distance = 0 then some point_masses
    else
      let direction := (point_a.position - point_b.position).sdiv distance
      let relative_velocity := point_a.velocity - point_b.velocity
      let velocity_towards := relative_velocity.dot direction
      let force := Vec3.smul
        (-s.spring_constant * (distance - s.rest_length)
          - s.damping_coefficient * velocity_towards) direction
      let force_on_a := force - Vec3.smul (force.dot point_a.position) point_a.position
      let force_on_b := (-force) - Vec3.smul ((-force).dot point_b.position) point_b.position
      some (addForceAt (addForceAt point_masses s.anchor_a force_on_a) s.anchor_b force_on_b)
  | _, _ => none

/-- Association-list lookup, modelling `std::collections::HashMap::get`. -/
def lookupA {α : Type} (l : List (Nat × α)) (k : Nat) : Option α :=
  match l with
  | [] => none
  | p :: rest => if p.1 = k then some p.2 else lookupA rest k

/-- Association-list insert (overwriting), modelling `HashMap::insert`. -/
def insertA {α : Type} (l : List (Nat × α)) (k : Nat) (v : α) : List (Nat × α) :=
  match l with
  | [] => [(k, v)]
  | p :: rest => if p.1 = k then (k, v) :: rest else p :: insertA rest k v

/-- `soft_sphere::Shape` (src/crates/soft_sphere/src/shape.rs).
`spring_map` is the `HashMap<usize, Vec<usize>>` from point-mass index to
incident spring indices, modelled as an association list (hash iteration order
is never observed through `spring_map`: it is only read via `get`). -/
structure Shape (K : Type) where
  point_masses : List (PointMass K)
  springs : List (Spring K)
  centroid : Vec3 K
  bounding_distance : K
  spring_map : List (Nat × List Nat)
deriving DecidableEq

/-- `Shape::new` (centroid and bounding distance start as `f32::NAN`). -/
def Shape.new (ops : SphereOps K) : Shape K :=
  ⟨[], [], ⟨ops.nan, ops.nan, ops.nan⟩, ops.nan, []⟩

/-- `Shape::add_point_mass`. -/
def Shape.add_point_mass (shape : Shape K) (point_mass : PointMass K) : Shape K :=
  { shape with
      spring_map := insertA shape.spring_map shape.point_masses.length [],
      point_masses := shape.point_masses ++ [point_mass] }

/-- `Shape::add_spring`. -/
def Shape.add_spring (shape : Shape K) (spring : Spring K) : Shape K :=
  let m1 := match lookupA shape.spring_map spring.anchor_a with
    | some entry => insertA shape.spring_map spring.anchor_a (entry ++ [shape.springs.length])
    | none => insertA shape.spring_map spring.anchor_a [shape.springs.length]
  let m2 := match lookupA m1 spring.anchor_b with
    | some entry => insertA m1 spring.anchor_b (entry ++ [shape.springs.length])
    | none => insertA m1 spring.anchor_b [shape.springs.length]
  { shape with spring_map := m2, springs := shape.springs ++ [spring] }

/-- `Shape::zero_forces`. -/
def Shape.zero_forces (shape : Shape K) : Shape K :=
  { shape with point_masses := shape.point_masses.map fun pm =>
      { pm with prev_force := pm.force, force := Vec3.zero } }

/-- `Shape::apply_spring_forces`. -/
def Shape.apply_spring_forces (ops : SphereOps K) (shape : Shape K) : Option (Shape K) :=
  (shape.springs.foldlM (fun pms s => Spring.apply_force ops s pms) shape.point_masses).map
    fun pms => { shape with point_masses := pms }

/-- `Shape::apply_external_force`. -/
def Shape.apply_external_force (shape : Shape K) (function : PointMass K → Vec3 K) : Shape K :=
  { shape with point_masses := shape.point_masses.map fun pm =>
      { pm with force := pm.force + function pm } }

/-- The per-mass body of the loop in `Shape::update`
(src/crates/soft_sphere/src/shape.rs lines 72-89): velocity-Verlet step with
tangent-plane projection and exact geodesic rotation. -/
def updatePointMass (ops : SphereOps K) (timestep : K) (point_mass : PointMass K) :
    PointMass K :=
  let old_acc := point_mass.prev_force.sdiv point_mass.mass
  let new_acc := point_mass.force.sdiv point_mass.mass
  let displacement := Vec3.smul timestep point_mass.velocity
    + Vec3.smul (1 / 2 * timestep ^ 2) old_acc
  let tangent_disp := displacement
    - Vec3.smul (displacement.dot point_mass.position) point_mass.position
  let angle := tangent_disp.length ops
  let position1 :=
    if 0 < angle then
      let axis := (point_mass.position.cross tangent_disp).normalize ops
      let rot := Quat.from_axis_angle ops axis angle
      (rot.mul_vec3 point_mass.position).normalize ops
    else point_mass.position
  { point_mass with
      position := position1,
      velocity := point_mass.velocity + Vec3.smul timestep ((old_acc + new_acc).sdiv 2) }

/-- `Shape::update_centroid`. -/
def Shape.update_centroid (shape : Shape K) : Shape K :=
  { shape with centroid := (shape.point_masses.foldl
      (fun c pm => c + pm.position.sdiv (shape.point_masses.length : K)) Vec3.zero) }

/-- `Shape::update_bounding_distance`; `none` models the `unwrap` panic of
`max_by` on an empty point-mass list. -/
def Shape.update_bounding_distance (ops : SphereOps K) (shape : Shape K) : Option (Shape K) :=
  match shape.point_masses.map
      (fun pm => ops.acos (clampf (pm.position.dot shape.centroid) (-1) 1)) with
  | [] => none
  | d :: ds => some { shape with bounding_distance := ds.foldl max d }

/-- `Shape::update` (src/crates/soft_sphere/src/shape.rs lines 71-93). -/
def Shape.update (ops : SphereOps K) (shape : Shape K) (timestep : K) : Option (Shape K) :=
  let s1 := { shape with point_masses := shape.point_masses.map (updatePointMass ops timestep) }
  let s2 := s1.zero_forces
  let s3 := s2.update_centroid
  s3.update_bounding_distance ops

/-- `Shape::within_bounding_spherical_cap`. -/
def Shape.within_bounding_spherical_cap (ops : SphereOps K) (shape : Shape K)
    (position : Vec3 K) : Bool :=
  decide (ops.acos (clampf (position.dot shape.centroid) (-1) 1) < shape.bounding_distance)

/-- `Shape::iter_point_masses_with_springs`
(src/crates/soft_sphere/src/shape.rs lines 117-132), with the springs for each
mass materialised. `none` models the `expect` panic when a point-mass index is
missing from `spring_map`, or out-of-bounds spring indexing. -/
def Shape.iter_point_masses_with_springs (shape : Shape K) :
    Option (List (PointMass K × List (Spring K))) :=
  (List.range shape.point_masses.length).mapM fun i =>
    match shape.point_masses[i]?, lookupA shape.spring_map i with
    | some pm, some spring_indices =>
      (spring_indices.mapM fun spring_index => shape.springs[spring_index]?).map
        fun springs => (pm, springs)
    | _, _ => none

/-- `Shape::par_iter_point_masses_with_springs`
(src/crates/soft_sphere/src/shape.rs lines 135-150): identical to the
sequential variant except that the inner iterator is a rayon parallel
iterator; the yielded elements are the same, so the model coincides. -/
def Shape.par_iter_point_masses_with_springs (shape : Shape K) :
    Option (List (PointMass K × List (Spring K))) :=
  (List.range shape.point_masses.length).mapM fun i =>
    match shape.point_masses[i]?, lookupA shape.spring_map i with
    | some pm, some spring_indices =>
      (spring_indices.mapM fun spring_index => shape.springs[spring_index]?).map
        fun springs => (pm, springs)
    | _, _ => none

/-! ## suz_sim crate -/

/-- `suz_sim::plate::PlateType`. -/
inductive PlateType where
  | Oceanic
  | Continental
deriving DecidableEq

/-- bevy `Color` as produced from `LinearRgba::new(r, g, b, a)` (cosmetic). -/
structure Color (K : Type) where
  red : K
  green : K
  blue : K
  alpha : K
deriving DecidableEq

/-- `suz_sim::plate::Plate`. -/
structure Plate (K : Type) where
  plate_type : PlateType
  color : Color K
  axis_of_rotation : Vec3 K
  drift_direction : Vec2 K
  shape : Shape K
deriving DecidableEq

/-- The seeded random source (`rand::rngs::StdRng`), abstracted as two value
streams sharing one draw counter: the `n`-th draw of `random_range(0..len)`
yields `natStream n % len`, and the `n`-th draw of a float sample
(`random::<f32>()` or `random_range(-1.0..1.0)`) yields `ratStream n`.
Every draw advances the same counter, so consumption order is exactly the
source's; two engine instances share a seed exactly when they share streams. -/
structure Rng (K : Type) where
  natStream : Nat → Nat
  ratStream : Nat → K
  k : Nat

/-- `rng.random_range(0..n)`; panics (`none`) on an empty range. -/
def Rng.randomRange (r : Rng K) (n : Nat) : Option (Nat × Rng K) :=
  if n = 0 then none else some (r.natStream r.k % n, { r with k := r.k + 1 })

/-- A float draw (`rng.random::<f32>()` or `rng.random_range(-1.0..1.0)`). -/
def Rng.randomFloat (r : Rng K) : K × Rng K := (r.ratStream r.k, { r with k := r.k + 1 })

/-- glam/bevy `Vec2::normalize`. -/
def Vec2.normalize (ops : SphereOps K) (v : Vec2 K) : Vec2 K :=
  ⟨v.x / ops.sqrt (v.x * v.x + v.y * v.y), v.y / ops.sqrt (v.x * v.x + v.y * v.y)⟩

/-- `Plate::random` (src/crates/suz_sim/src/plate.rs lines 19-34); draw order:
three color components, three axis components, two drift components. -/
def Plate.random (ops : SphereOps K) (plate_type : PlateType) (rng : Rng K) :
    Plate K × Rng K :=
  let (r, rng1) := rng.randomFloat
  let (g, rng2) := rng1.randomFloat
  let (b, rng3) := rng2.randomFloat
  let (ax, rng4) := rng3.randomFloat
  let (ay, rng5) := rng4.randomFloat
  let (az, rng6) := rng5.randomFloat
  let (dx, rng7) := rng6.randomFloat
  let (dy, rng8) := rng7.randomFloat
  (⟨plate_type, ⟨r, g, b, 1⟩, Vec3.normalize ops ⟨ax, ay, az⟩,
    Vec2.normalize ops ⟨dx, dy⟩, Shape.new ops⟩, rng8)

/-- `suz_sim::particle_sphere::ParticleTile`. -/
structure ParticleTile (K : Type) where
  index : Nat
  adjacent : List Nat
  normal : Vec3 K
deriving DecidableEq

/-- `suz_sim::particle_sphere::ParticleSphere`, restricted to its tile list;
the `config` and `subsphere` fields belong to the external tessellation
provider and are never consulted by the tectonics engine. -/
structure ParticleSphere (K : Type) where
  tiles : List (ParticleTile K)
deriving DecidableEq

/-- `suz_sim::tectonics::TectonicsConfiguration`. -/
structure TectonicsConfiguration (K : Type) where
  plate_goal : Nat
  major_plate_fraction : K
  major_tile_fraction : K
  continental_rate : K
  min_plate_size : Nat
  particle_force_radius : K
  repulsive_force_modifier : K
  spring_constant : K
  dampener_coefficient : K
  plate_force_modifier : K
  plate_rotation_drift_rate : K
  timestep : K
  iterations : Nat
  friction_coefficient : K
deriving DecidableEq

def OCEANIC_PARTICLE_MASS : K := 1

def CONTINENTAL_PARTICLE_MASS : K := 5

/-- `suz_sim::tectonics::PlateBuilder`. -/
structure PlateBuilder (K : Type) where
  plate : Plate K
  tile_to_point_mass : List (Nat × Nat)
deriving DecidableEq

/-- `PlateBuilder::new`. -/
def PlateBuilder.new (plate : Plate K) : PlateBuilder K := ⟨plate, []⟩

/-- The spring-creation loop shared verbatim (up to variable names) by
`PlateBuilder::add_point_mass` (tectonics.rs lines 74-86) and the merge loop
(lines 228-249): for each adjacent tile found in `map`, push onto `springs0`
a spring from `new_index` to the mapped index, with rest length equal to the
current geodesic distance between the two point masses. -/
def addAdjacentSprings (ops : SphereOps K) (config : TectonicsConfiguration K)
    (pms : List (PointMass K)) (map : List (Nat × Nat)) (new_index : Nat)
    (adjacent : List Nat) (springs0 : List (Spring K)) : Option (List (Spring K)) :=
  adjacent.foldlM (fun (springs : List (Spring K)) adj_tile =>
      match lookupA map adj_tile with
      | some adj_index =>
        match pms[new_index]?, pms[adj_index]? with
        | some pma, some pmb =>
          some (springs ++ [(⟨new_index, adj_index,
            pma.geodesic_distance ops pmb, config.spring_constant,
            config.dampener_coefficient⟩ : Spring K)])
        | _, _ => none
      | none => some springs) springs0

/-- `PlateBuilder::add_point_mass` (tectonics.rs lines 63-88).  Pushes the
mass directly onto `shape.point_masses` and the springs directly onto
`shape.springs` (NOT via `Shape::add_point_mass`/`Shape::add_spring`, so the
shape's `spring_map` is left untouched), then adds a spring to every
already-added adjacent tile of this plate (the map already contains the tile
just inserted, so a self-adjacent tile produces a self-spring). -/
def PlateBuilder.add_point_mass (ops : SphereOps K) (config : TectonicsConfiguration K)
    (particle_sphere : ParticleSphere K) (b : PlateBuilder K) (tile_index : Nat)
    (point_mass : PointMass K) : Option (PlateBuilder K) :=
  let point_mass_index := b.plate.shape.point_masses.length
  let pms := b.plate.shape.point_masses ++ [point_mass]
  let map := insertA b.tile_to_point_mass tile_index point_mass_index
  match particle_sphere.tiles[tile_index]? with
  | none => none
  | some tile =>
    (addAdjacentSprings ops config pms map point_mass_index tile.adjacent
        b.plate.shape.springs).map fun springs =>
      { b with
          plate := { b.plate with shape :=
            { b.plate.shape with point_masses := pms, springs := springs } },
          tile_to_point_mass := map }

/-- `Vec::swap_remove(i)`: the removed element together with the remaining
vector (the last element moves into slot `i`). -/
def swapRemoveGet {α : Type} (l : List α) (i : Nat) : Option (α × List α) :=
  match l[i]? with
  | none => none
  | some v => some (v, l.dropLast.set i (l.getLastD v))

/-- `adjacent_tiles.extend(tile.adjacent.iter().filter(|i| available_tiles.remove(i)))`
(tectonics.rs lines 165-170): move every listed tile still unclaimed from the
available set to the frontier. -/
def extendAdj : List Nat → List Nat → List Nat → List Nat × List Nat
  | available, adjacent, [] => (available, adjacent)
  | available, adjacent, t :: rest =>
    if t ∈ available then extendAdj (available.erase t) (adjacent ++ [t]) rest
    else extendAdj available adjacent rest

/-- The inner `for _ in 0..tiles_to_take` loop of `Tectonics::from_config`
(tectonics.rs lines 147-171). -/
def growPlate (ops : SphereOps K) (config : TectonicsConfiguration K)
    (particle_sphere : ParticleSphere K) (plate_type : PlateType) :
    Nat → PlateBuilder K → Rng K → List Nat → List Nat →
    Option (PlateBuilder K × Rng K × List Nat × List Nat)
  | 0, b, rng, available, adjacent => some (b, rng, available, adjacent)
  | n + 1, b, rng, available, adjacent =>
    if adjacent.isEmpty then some (b, rng, available, adjacent)
    else
      match rng.randomRange adjacent.length with
      | none => none
      | some (i, rng1) =>
        match swapRemoveGet adjacent i with
        | none => none
        | some (random_adjacent_tile, adjacent1) =>
          let mass : K := if plate_type = PlateType.Continental
            then CONTINENTAL_PARTICLE_MASS else OCEANIC_PARTICLE_MASS
          match particle_sphere.tiles[random_adjacent_tile]? with
          | none => none
          | some tile =>
            match PlateBuilder.add_point_mass ops config particle_sphere b
                random_adjacent_tile (PointMass.new tile.normal mass) with
            | none => none
            | some b1 =>
              let (available2, adjacent2) := extendAdj available adjacent1 tile.adjacent
              growPlate ops config particle_sphere plate_type n b1 rng1 available2 adjacent2

/-- The closure body inside `min_by` (tectonics.rs lines 179-198): minimum
geodesic distance from any of `b`'s point masses to `pm0`; `none` models the
`unwrap` panic when `b` has no point masses. -/
def closestPointMassDist (ops : SphereOps K) (b : PlateBuilder K) (pm0 : PointMass K) :
    Option K :=
  match b.plate.shape.point_masses.map (fun pm => pm.geodesic_distance ops pm0) with
  | [] => none
  | d :: ds => some (ds.foldl min d)

/-- Fold of `Iterator::min_by` keeping the earliest minimum; the comparator
(which evaluates both sides' minima) runs once per remaining element. -/
def closestGo (ops : SphereOps K) (pm0 : PointMass K) :
    List (PlateBuilder K) → Nat → PlateBuilder K → Nat → Option Nat
  | [], _, _, besti => some besti
  | b :: rest, i, bestb, besti =>
    match closestPointMassDist ops bestb pm0, closestPointMassDist ops b pm0 with
    | some da, some db =>
      if db < da then closestGo ops pm0 rest (i + 1) b i
      else closestGo ops pm0 rest (i + 1) bestb besti
    | _, _ => none

/-- `plate_builders.iter_mut().min_by(...)` (tectonics.rs lines 176-203) as an
index; `none` models both `expect` panics (no plate available to merge into,
or an empty plate's `unwrap` during a comparison). -/
def closestPlateBuilderIdx (ops : SphereOps K) (builders : List (PlateBuilder K))
    (pm0 : PointMass K) : Option Nat :=
  match builders with
  | [] => none
  | b0 :: rest => closestGo ops pm0 rest 1 b0 0

/-- One entry of the merge loop (tectonics.rs lines 205-250): re-instantiate
one point mass of the undersized plate inside the target builder (mass value
recomputed from the target's type, velocity and forces zeroed) and add springs
to every adjacent tile already present in the target. -/
def mergePointMass (ops : SphereOps K) (config : TectonicsConfiguration K)
    (particle_sphere : ParticleSphere K) (small : PlateBuilder K)
    (target : PlateBuilder K) (entry : Nat × Nat) : Option (PlateBuilder K) :=
  match small.plate.shape.point_masses[entry.2]? with
  | none => none
  | some point_mass =>
    let new_index := target.plate.shape.point_masses.length
    let newMass : K := if target.plate.plate_type = PlateType.Continental
      then CONTINENTAL_PARTICLE_MASS else OCEANIC_PARTICLE_MASS
    let pms := target.plate.shape.point_masses ++
      [⟨point_mass.position, Vec3.zero, Vec3.zero, Vec3.zero, newMass⟩]
    let map := insertA target.tile_to_point_mass entry.1 new_index
    match particle_sphere.tiles[entry.1]? with
    | none => none
    | some tile =>
      (addAdjacentSprings ops config pms map new_index tile.adjacent
          target.plate.shape.springs).map fun springs =>
        { target with
            plate := { target.plate with shape :=
              { target.plate.shape with point_masses := pms, springs := springs } },
            tile_to_point_mass := map }

/-- The whole merge loop over the undersized builder's `tile_to_point_mass`
entries, in the hash-iteration order supplied by the oracle. -/
def mergeLoop (ops : SphereOps K) (config : TectonicsConfiguration K)
    (particle_sphere : ParticleSphere K) (small : PlateBuilder K)
    (entries : List (Nat × Nat)) (target : PlateBuilder K) : Option (PlateBuilder K) :=
  entries.foldlM (mergePointMass ops config particle_sphere small) target

/-- Oracle for the iteration order of `std` hash containers.
`std::collections::HashMap`/`HashSet` iterate in an order determined by a
per-instance random hasher state (`RandomState`); that state is NOT derived
from the simulation's seeded `StdRng`, so the order is an independent input.
The oracle receives a counter (bumped at each materialisation site) and the
current contents, and returns the iteration order; a real execution always
returns some permutation of the contents. -/
structure HashOrders where
  setOrder : Nat → List Nat → List Nat
  mapOrder : Nat → List (Nat × Nat) → List (Nat × Nat)

/-- The mutable state of the assembly loop in `Tectonics::from_config`. -/
structure AsmState (K : Type) where
  rng : Rng K
  hc : Nat
  generated_majors : Nat
  generated_minors : Nat
  available_tiles : List Nat
  adjacent_tiles : List Nat
  plate_builders : List (PlateBuilder K)

/-- The comparison `(generated_majors as f32 / generated_minors as f32) > major_plate_fraction`
(tectonics.rs line 136), with `f32` division-by-zero semantics made explicit:
`0.0 / 0.0` is `NaN`, and every ordered comparison against `NaN` is `false`;
`x / 0.0` for `x > 0` is `+∞`, which exceeds every finite (in-range)
`major_plate_fraction`.  For nonzero minors the counts are small integers,
modelled with exact division. -/
def quotaExceeds (generated_majors generated_minors : Nat)
    (major_plate_fraction : K) : Bool :=
  if generated_minors = 0 then
    if generated_majors = 0 then false
    else true
  else decide ((generated_majors : K) / (generated_minors : K) > major_plate_fraction)

/-- `(tile_count as f32 * major_tile_fraction / (plate_goal as f32 / 2.) / major_plate_fraction) as usize`
(tectonics.rs lines 115-117); `as usize` truncates the nonnegative value
toward zero.  Caveat: when `plate_goal` or `major_plate_fraction` is zero the
`f32` quotient is `+∞`/`NaN` (casting to `usize::MAX` resp. `0`) while this
exact model yields `0`; no theorem depends on the quota's value. -/
def majorTileCount [FloorRing K] (config : TectonicsConfiguration K)
    (tile_count : Nat) : Nat :=
  (⌊(tile_count : K) * config.major_tile_fraction / ((config.plate_goal : K) / 2)
      / config.major_plate_fraction⌋).toNat

/-- `(tile_count as f32 * (1. - major_tile_fraction) / (plate_goal as f32 / 2.) / (1. - major_plate_fraction)) as usize`
(tectonics.rs lines 118-120); same casting caveat as `majorTileCount`. -/
def minorTileCount [FloorRing K] (config : TectonicsConfiguration K)
    (tile_count : Nat) : Nat :=
  (⌊(tile_count : K) * (1 - config.major_tile_fraction) / ((config.plate_goal : K) / 2)
      / (1 - config.major_plate_fraction)⌋).toNat

/-- The plate-type balancing test of tectonics.rs lines 128-134: compare the
running fraction of claimed tiles against `continental_rate`. -/
def stepPlateType (config : TectonicsConfiguration K)
    (particle_sphere : ParticleSphere K) (st : AsmState K) : PlateType :=
  if ((particle_sphere.tiles.length - st.available_tiles.length : Nat) : K)
      / (particle_sphere.tiles.length : K) < config.continental_rate
  then PlateType.Continental else PlateType.Oceanic

/-- Lines 172-251: keep the grown plate if it reaches `min_plate_size`,
discard it silently if empty, otherwise merge it into the closest existing
plate (in the oracle-supplied `HashMap` iteration order). -/
def placeBuilder (ops : SphereOps K) (config : TectonicsConfiguration K)
    (particle_sphere : ParticleSphere K) (orders : HashOrders)
    (builders : List (PlateBuilder K)) (hc : Nat) (b : PlateBuilder K) :
    Option (List (PlateBuilder K) × Nat) :=
  if config.min_plate_size ≤ b.plate.shape.point_masses.length then
    some (builders ++ [b], hc)
  else if b.plate.shape.point_masses.isEmpty then
    some (builders, hc)
  else
    match b.plate.shape.point_masses[0]? with
    | none => none
    | some pm0 =>
      match closestPlateBuilderIdx ops builders pm0 with
      | none => none
      | some ci =>
        match builders[ci]? with
        | none => none
        | some target =>
          match mergeLoop ops config particle_sphere b
              (orders.mapOrder hc b.tile_to_point_mass) target with
          | none => none
          | some target1 => some (builders.set ci target1, hc + 1)

/-- Lines 253-261: drain the frontier back into the available set and, when
tiles remain, seed a new frontier with a random tile drawn from the hash-set
iteration order. -/
def reseedState (orders : HashOrders) (rng2 : Rng K) (hc1 gm gmi : Nat)
    (builders1 : List (PlateBuilder K)) (available2 : List Nat) :
    Option (AsmState K) :=
  if available2.isEmpty then
    some ⟨rng2, hc1, gm, gmi, available2, [], builders1⟩
  else
    match rng2.randomRange (orders.setOrder hc1 available2).length with
    | none => none
    | some (i, rng3) =>
      match (orders.setOrder hc1 available2)[i]? with
      | none => none
      | some starting_tile =>
        some ⟨rng3, hc1 + 1, gm, gmi, available2.erase starting_tile,
          [starting_tile], builders1⟩

/-- One iteration of the `while available_tiles.len() > 0 || adjacent_tiles.len() > 0`
loop of `Tectonics::from_config` (tectonics.rs lines 127-262). -/
def assembleStep [FloorRing K] (ops : SphereOps K) (config : TectonicsConfiguration K)
    (particle_sphere : ParticleSphere K) (orders : HashOrders) (st : AsmState K) :
    Option (AsmState K) :=
  match growPlate ops config particle_sphere (stepPlateType config particle_sphere st)
      (if quotaExceeds st.generated_majors st.generated_minors config.major_plate_fraction
       then minorTileCount config particle_sphere.tiles.length
       else majorTileCount config particle_sphere.tiles.length)
      (PlateBuilder.new (Plate.random ops (stepPlateType config particle_sphere st) st.rng).1)
      (Plate.random ops (stepPlateType config particle_sphere st) st.rng).2
      st.available_tiles st.adjacent_tiles with
  | none => none
  | some (b, rng2, available1, adjacent1) =>
    match placeBuilder ops config particle_sphere orders st.plate_builders st.hc b with
    | none => none
    | some (builders1, hc1) =>
      reseedState orders rng2 hc1
        (if quotaExceeds st.generated_majors st.generated_minors config.major_plate_fraction
         then st.generated_majors else st.generated_majors + 1)
        (if quotaExceeds st.generated_majors st.generated_minors config.major_plate_fraction
         then st.generated_minors + 1 else st.generated_minors)
        builders1 (available1 ++ adjacent1)

/-- Characterisation of a successful `reseedState`. -/
theorem reseedState_eq (orders : HashOrders) (rng2 : Rng K) (hc1 gm gmi : Nat)
    (builders1 : List (PlateBuilder K)) (available2 : List Nat) (st' : AsmState K)
    (h : reseedState orders rng2 hc1 gm gmi builders1 available2 = some st') :
    st'.generated_majors = gm ∧ st'.generated_minors = gmi ∧
    st'.plate_builders = builders1 ∧
    ((available2 = [] ∧ st'.available_tiles = [] ∧ st'.adjacent_tiles = []) ∨
     (∃ (i : Nat) (starting_tile : Nat),
        (orders.setOrder hc1 available2)[i]? = some starting_tile ∧
        st'.available_tiles = available2.erase starting_tile ∧
        st'.adjacent_tiles = [starting_tile])) := by
  unfold reseedState at h
  split at h
  · next hemp =>
    cases h
    have hav : available2 = [] := List.isEmpty_iff.mp hemp
    subst hav
    exact ⟨rfl, rfl, rfl, Or.inl ⟨rfl, rfl, rfl⟩⟩
  · cases hr : rng2.randomRange (orders.setOrder hc1 available2).length with
    | none =>
      simp only [hr] at h
      exact Option.noConfusion h
    | some pair =>
      obtain ⟨i, rng3⟩ := pair
      simp only [hr] at h
      cases hl : (orders.setOrder hc1 available2)[i]? with
      | none =>
        simp only [hl] at h
        exact Option.noConfusion h
      | some starting_tile =>
        simp only [hl] at h
        cases h
        exact ⟨rfl, rfl, rfl, Or.inr ⟨i, starting_tile, hl, rfl, rfl⟩⟩

/-- Characterisation of a successful `placeBuilder`. -/
theorem placeBuilder_eq (ops : SphereOps K) (config : TectonicsConfiguration K)
    (ps : ParticleSphere K) (orders : HashOrders) (builders : List (PlateBuilder K))
    (hc : Nat) (b : PlateBuilder K) (res : List (PlateBuilder K) × Nat)
    (h : placeBuilder ops config ps orders builders hc b = some res) :
    (config.min_plate_size ≤ b.plate.shape.point_masses.length ∧
      res = (builders ++ [b], hc)) ∨
    (¬ config.min_plate_size ≤ b.plate.shape.point_masses.length ∧
      b.plate.shape.point_masses = [] ∧ res = (builders, hc)) ∨
    (¬ config.min_plate_size ≤ b.plate.shape.point_masses.length ∧
      b.plate.shape.point_masses ≠ [] ∧
      ∃ pm0 ci target target1,
        b.plate.shape.point_masses[0]? = some pm0 ∧
        closestPlateBuilderIdx ops builders pm0 = some ci ∧
        builders[ci]? = some target ∧
        mergeLoop ops config ps b (orders.mapOrder hc b.tile_to_point_mass) target
          = some target1 ∧
        res = (builders.set ci target1, hc + 1)) := by
  unfold placeBuilder at h
  split at h
  · cases h
    next hge => exact Or.inl ⟨hge, rfl⟩
  · next hlt =>
    split at h
    · cases h
      next hemp => exact Or.inr (Or.inl ⟨hlt, List.isEmpty_iff.mp hemp, rfl⟩)
    · next hnemp =>
      have hne : b.plate.shape.point_masses ≠ [] := fun hh =>
        hnemp (by rw [hh]; rfl)
      cases h0 : b.plate.shape.point_masses[0]? with
      | none =>
        simp only [h0] at h
        exact Option.noConfusion h
      | some pm0 =>
        simp only [h0] at h
        cases hci : closestPlateBuilderIdx ops builders pm0 with
        | none =>
          simp only [hci] at h
          exact Option.noConfusion h
        | some ci =>
          simp only [hci] at h
          cases htg : builders[ci]? with
          | none =>
            simp only [htg] at h
            exact Option.noConfusion h
          | some target =>
            simp only [htg] at h
            cases hml : mergeLoop ops config ps b
                (orders.mapOrder hc b.tile_to_point_mass) target with
            | none =>
              simp only [hml] at h
              exact Option.noConfusion h
            | some target1 =>
              simp only [hml] at h
              cases h
              exact Or.inr (Or.inr ⟨hlt, hne,
                pm0, ci, target, target1, rfl, hci, htg, hml, rfl⟩)

/-- Characterisation of one successful iteration of the inner grow loop. -/
theorem growPlate_succ_eq (ops : SphereOps K) (config : TectonicsConfiguration K)
    (ps : ParticleSphere K) (ptype : PlateType) (n : Nat) (b : PlateBuilder K)
    (rng : Rng K) (avail adj : List Nat)
    (res : PlateBuilder K × Rng K × List Nat × List Nat)
    (h : growPlate ops config ps ptype (n + 1) b rng avail adj = some res)
    (hne : adj.isEmpty = false) :
    ∃ i rng1 t adj1 tile b1,
      rng.randomRange adj.length = some (i, rng1) ∧
      swapRemoveGet adj i = some (t, adj1) ∧
      ps.tiles[t]? = some tile ∧
      PlateBuilder.add_point_mass ops config ps b t
        (PointMass.new tile.normal (if ptype = PlateType.Continental
          then CONTINENTAL_PARTICLE_MASS else OCEANIC_PARTICLE_MASS)) = some b1 ∧
      growPlate ops config ps ptype n b1 rng1 (extendAdj avail adj1 tile.adjacent).1
        (extendAdj avail adj1 tile.adjacent).2 = some res := by
  unfold growPlate at h
  rw [hne] at h
  simp only [Bool.false_eq_true, if_false] at h
  cases hr : rng.randomRange adj.length with
  | none =>
    simp only [hr] at h
    exact Option.noConfusion h
  | some pair =>
    obtain ⟨i, rng1⟩ := pair
    simp only [hr] at h
    cases hsw : swapRemoveGet adj i with
    | none =>
      simp only [hsw] at h
      exact Option.noConfusion h
    | some pair2 =>
      obtain ⟨t, adj1⟩ := pair2
      simp only [hsw] at h
      cases htile : ps.tiles[t]? with
      | none =>
        simp only [htile] at h
        exact Option.noConfusion h
      | some tile =>
        simp only [htile] at h
        cases hadd : PlateBuilder.add_point_mass ops config ps b t
            (PointMass.new tile.normal (if ptype = PlateType.Continental
              then CONTINENTAL_PARTICLE_MASS else OCEANIC_PARTICLE_MASS)) with
        | none =>
          simp only [hadd] at h
          exact Option.noConfusion h
        | some b1 =>
          simp only [hadd] at h
          exact ⟨i, rng1, t, adj1, tile, b1, rfl, hsw, htile, hadd, h⟩

/-- The assembly while-loop, with explicit fuel (the source loop does not
terminate for quota-zero configurations; every claim is conditional on a
normal return, and running out of fuel yields `none`). -/
def assembleLoop [FloorRing K] (ops : SphereOps K) (config : TectonicsConfiguration K)
    (particle_sphere : ParticleSphere K) (orders : HashOrders) :
    Nat → AsmState K → Option (List (PlateBuilder K))
  | 0, _ => none
  | fuel + 1, st =>
    if st.available_tiles.length > 0 ∨ st.adjacent_tiles.length > 0 then
      match assembleStep ops config particle_sphere orders st with
      | none => none
      | some st1 => assembleLoop ops config particle_sphere orders fuel st1
    else some st.plate_builders

/-- `suz_sim::tectonics::Tectonics` (the configuration, the `ideal_distance`
computed at line 109, and the surviving plates). -/
structure Tectonics (K : Type) where
  config : TectonicsConfiguration K
  ideal_distance : K
  plates : List (Plate K)
deriving DecidableEq

/-- Lines 122-125 of `Tectonics::from_config`: pick a random starting tile,
mark every other tile available, seed the frontier with the starting tile. -/
def initState (particle_sphere : ParticleSphere K) (rng : Rng K) : Option (AsmState K) :=
  match rng.randomRange particle_sphere.tiles.length with
  | none => none
  | some (starting_tile, rng1) =>
    some { rng := rng1, hc := 0, generated_majors := 0, generated_minors := 0,
           available_tiles := (List.range particle_sphere.tiles.length).erase starting_tile,
           adjacent_tiles := [starting_tile], plate_builders := [] }

/-- Lines 108-280 of `Tectonics::from_config`: everything after the three
configuration asserts (assembly loop, final count assertion, construction). -/
def fromConfigBody [FloorRing K] (ops : SphereOps K)
    (config : TectonicsConfiguration K) (particle_sphere : ParticleSphere K)
    (rng : Rng K) (orders : HashOrders) (fuel : Nat) : Option (Tectonics K) :=
  let ideal_distance := ops.acos (1 - 2 / (particle_sphere.tiles.length : K)) * 2
  match initState particle_sphere rng with
  | none => none
  | some st0 =>
    match assembleLoop ops config particle_sphere orders fuel st0 with
    | none => none
    | some plate_builders =>
      let point_mass_count := (plate_builders.map
        (fun pb => pb.plate.shape.point_masses.length)).sum
      if point_mass_count = particle_sphere.tiles.length then
        some ⟨config, ideal_distance, plate_builders.map (fun pb => pb.plate)⟩
      else none

/-- `Tectonics::from_config` (tectonics.rs lines 99-280).  `none` models every
panic: a configuration fraction outside `[0,1]` (the three `assert!`s at
lines 104-106, checked before anything else), `random_range` on an empty
range, the merge `expect`/`unwrap` failures, and the final
point-mass-count assertion — plus fuel exhaustion. -/
def Tectonics.from_config [FloorRing K] (ops : SphereOps K)
    (config : TectonicsConfiguration K) (particle_sphere : ParticleSphere K)
    (rng : Rng K) (orders : HashOrders) (fuel : Nat) : Option (Tectonics K) :=
  if ¬ (0 ≤ config.major_tile_fraction ∧ config.major_tile_fraction ≤ 1) then none
  else if ¬ (0 ≤ config.major_plate_fraction ∧ config.major_plate_fraction ≤ 1) then none
  else if ¬ (0 ≤ config.continental_rate ∧ config.continental_rate ≤ 1) then none
  else fromConfigBody ops config particle_sphere rng orders fuel

/-! ## Concrete instantiations used by executable witnesses -/

/-- Executable stand-in scalar functions over `ℚ` (for witnesses; the only
facts theorems ever use about them are the ones their hypotheses pin down,
e.g. here `acos 1 = 0` and `sqrt 0 = 0`). -/
def ratOps : SphereOps ℚ :=
  ⟨fun _ => 0, fun x => 1 - x, fun _ => 1, fun _ => 0, 0⟩

/-- Hash-iteration oracle returning the contents in canonical order. -/
def idOrders : HashOrders := ⟨fun _ l => l, fun _ l => l⟩

/-- Hash-iteration oracle returning the contents reversed — another
legitimate iteration order of the very same containers. -/
def revOrders : HashOrders := ⟨fun _ l => l.reverse, fun _ l => l.reverse⟩

/-- Deterministic rng streams: every ranged draw picks index 0, every float
draw yields 0. -/
def zeroRng : Rng ℚ := ⟨fun _ => 0, fun _ => 0, 0⟩

/-- Three pairwise non-adjacent tiles with distinct unit normals. -/
def sphere3 : ParticleSphere ℚ :=
  ⟨[⟨0, [], ⟨1, 0, 0⟩⟩, ⟨1, [], ⟨0, 1, 0⟩⟩, ⟨2, [], ⟨0, 0, 1⟩⟩]⟩

def config3 : TectonicsConfiguration ℚ :=
  { plate_goal := 2, major_plate_fraction := 1/2, major_tile_fraction := 1/2,
    continental_rate := 0, min_plate_size := 1, particle_force_radius := 1,
    repulsive_force_modifier := 1, spring_constant := 1, dampener_coefficient := 0,
    plate_force_modifier := 1, plate_rotation_drift_rate := 0, timestep := 1,
    iterations := 0, friction_coefficient := 0 }

/-- Two mutually adjacent tiles. -/
def sphere2 : ParticleSphere ℚ :=
  ⟨[⟨0, [1], ⟨1, 0, 0⟩⟩, ⟨1, [0], ⟨0, 1, 0⟩⟩]⟩

def config2 : TectonicsConfiguration ℚ :=
  { config3 with plate_goal := 1 }

/-- Two adjacent tiles plus two isolated tiles. -/
def sphere4 : ParticleSphere ℚ :=
  ⟨[⟨0, [1], ⟨1, 0, 0⟩⟩, ⟨1, [0], ⟨0, 1, 0⟩⟩, ⟨2, [], ⟨0, 0, 1⟩⟩,
    ⟨3, [], ⟨-1, 0, 0⟩⟩]⟩

def config4 : TectonicsConfiguration ℚ :=
  { config3 with plate_goal := 4, min_plate_size := 2 }

/-! ## Helper lemmas -/

theorem length_addForceAt (l : List (PointMass K)) (i : Nat) (f : Vec3 K) :
    (addForceAt l i f).length = l.length := by
  induction l generalizing i with
  | nil => rfl
  | cons pm rest ih =>
    cases i with
    | zero => rfl
    | succ n => simpa [addForceAt] using ih n

theorem getElem?_addForceAt (l : List (PointMass K)) (i : Nat) (f : Vec3 K) (j : Nat) :
    (addForceAt l i f)[j]? =
      if i = j then (l[j]?).map (fun pm => { pm with force := pm.force + f })
      else l[j]? := by
  induction l generalizing i j with
  | nil => simp [addForceAt]
  | cons pm rest ih =>
    cases i with
    | zero =>
      cases j with
      | zero => simp [addForceAt]
      | succ m => simp [addForceAt]
    | succ n =>
      cases j with
      | zero => simp [addForceAt]
      | succ m => simpa [addForceAt] using ih n m

/-- Tangent-plane projection (spec glossary): remove the component of `f`
parallel to the surface point `p`. -/
def tangentProject (f p : Vec3 K) : Vec3 K := f - Vec3.smul (f.dot p) p

/-- The spring-dampener force of spec §4.2: magnitude
`-k*(distance - rest_length) - damping*velocity_along_direction` along the
direction between the anchors, `distance` being the geodesic distance. -/
def springForce (ops : SphereOps K) (s : Spring K) (pa pb : PointMass K) : Vec3 K :=
  Vec3.smul (-s.spring_constant * (pa.geodesic_distance ops pb - s.rest_length)
      - s.damping_coefficient * ((pa.velocity - pb.velocity).dot
        ((pa.position - pb.position).sdiv (pa.geodesic_distance ops pb))))
    ((pa.position - pb.position).sdiv (pa.geodesic_distance ops pb))

/-! ## Claims C5 and C6 -/

/-- C5: for every spring whose two anchors are at non-zero geodesic distance,
`Spring::apply_force` adds to the two anchors' force accumulators the
tangent-plane projections of equal-and-opposite forces of magnitude
`-k*(distance - rest_length) - damping*(relative velocity projected on the
anchor direction)`, where distance is the geodesic distance; all other
point-mass state is untouched. -/
theorem c5_spring_force (ops : SphereOps K) (s : Spring K) (pms : List (PointMass K))
    (pa pb : PointMass K) (ha : pms[s.anchor_a]? = some pa) (hb : pms[s.anchor_b]? = some pb)
    (hab : s.anchor_a ≠ s.anchor_b) (hd : pa.geodesic_distance ops pb ≠ 0) :
    ∃ res, s.apply_force ops pms = some res ∧
      res[s.anchor_a]? = some { pa with
        force := pa.force + tangentProject (springForce ops s pa pb) pa.position } ∧
      res[s.anchor_b]? = some { pb with
        force := pb.force + tangentProject (-(springForce ops s pa pb)) pb.position } ∧
      (∀ j, j ≠ s.anchor_a → j ≠ s.anchor_b → res[j]? = pms[j]?) ∧
      res.length = pms.length := by
  refine ⟨addForceAt (addForceAt pms s.anchor_a
      (tangentProject (springForce ops s pa pb) pa.position)) s.anchor_b
      (tangentProject (-(springForce ops s pa pb)) pb.position), ?_, ?_, ?_, ?_, ?_⟩
  · unfold Spring.apply_force
    rw [ha, hb]
    simp only [if_neg hd]
    rfl
  · rw [getElem?_addForceAt, if_neg (Ne.symm hab), getElem?_addForceAt, if_pos rfl, ha]
    rfl
  · rw [getElem?_addForceAt, if_pos rfl, getElem?_addForceAt,
      if_neg hab, hb]
    rfl
  · intro j hja hjb
    rw [getElem?_addForceAt, if_neg (fun h => hjb h.symm),
      getElem?_addForceAt, if_neg (fun h => hja h.symm)]
  · rw [length_addForceAt, length_addForceAt]

/-- Witness for C5 at a concrete two-mass, one-spring system over `ℚ`. -/
theorem c5_spring_force_witness :
    ∃ res, Spring.apply_force ratOps ⟨0, 1, 1, 1, 0⟩
      [PointMass.new ⟨1, 0, 0⟩ 1, PointMass.new ⟨0, 1, 0⟩ 1] = some res ∧
      res.length = 2 := by
  obtain ⟨res, h, _, _, _, hlen⟩ := c5_spring_force ratOps ⟨0, 1, 1, 1, 0⟩
    [PointMass.new ⟨1, 0, 0⟩ 1, PointMass.new ⟨0, 1, 0⟩ 1]
    (PointMass.new ⟨1, 0, 0⟩ 1) (PointMass.new ⟨0, 1, 0⟩ 1)
    (by decide) (by decide) (by decide) (by decide)
  exact ⟨res, h, hlen⟩

/-- C6: a spring whose anchors are at geodesic distance exactly zero leaves
the whole point-mass vector unchanged (no force applied, nothing else
mutated) and returns without error. -/
theorem c6_zero_distance_skip (ops : SphereOps K) (s : Spring K)
    (pms : List (PointMass K)) (pa pb : PointMass K)
    (ha : pms[s.anchor_a]? = some pa) (hb : pms[s.anchor_b]? = some pb)
    (hd : pa.geodesic_distance ops pb = 0) :
    s.apply_force ops pms = some pms := by
  unfold Spring.apply_force
  rw [ha, hb]
  simp [hd]

/-- Witness for C6: two coincident unit positions give geodesic distance `0`
under the concrete `ℚ` stand-in (`acos 1 = 0`), and the spring is skipped. -/
theorem c6_zero_distance_skip_witness :
    Spring.apply_force ratOps ⟨0, 1, 1, 1, 0⟩
      [PointMass.new ⟨1, 0, 0⟩ 1, PointMass.new ⟨1, 0, 0⟩ 1] =
      some [PointMass.new ⟨1, 0, 0⟩ 1, PointMass.new ⟨1, 0, 0⟩ 1] :=
  c6_zero_distance_skip ratOps ⟨0, 1, 1, 1, 0⟩ _
    (PointMass.new ⟨1, 0, 0⟩ 1) (PointMass.new ⟨1, 0, 0⟩ 1)
    (by decide) (by decide) (by decide)

@[simp] theorem Vec3.add_def (a b : Vec3 K) : a + b = ⟨a.x + b.x, a.y + b.y, a.z + b.z⟩ := rfl

@[simp] theorem Vec3.sub_def (a b : Vec3 K) : a - b = ⟨a.x - b.x, a.y - b.y, a.z - b.z⟩ := rfl

@[simp] theorem Vec3.neg_def (a : Vec3 K) : -a = ⟨-a.x, -a.y, -a.z⟩ := rfl

/-- With `timestep = 0` the velocity-Verlet body leaves a point mass
unchanged: the displacement is the zero vector, its tangential projection is
zero, the rotation branch is skipped (`sqrt 0 = 0` is not `> 0`), and the
velocity increment vanishes. -/
theorem updatePointMass_zero (ops : SphereOps K) (pm : PointMass K)
    (h0 : ops.sqrt 0 = 0) : updatePointMass ops 0 pm = pm := by
  obtain ⟨pos, vel, pf, f, m⟩ := pm
  unfold updatePointMass
  norm_num [Vec3.smul, Vec3.sdiv, Vec3.dot, Vec3.zero, Vec3.length, Vec3.normSq, h0]

/-- C7: `Shape::update` with `timestep = 0` on a non-empty shape of positive
masses succeeds, changes no position or velocity, performs the force reset
(`prev_force := force; force := 0`), and leaves the cached centroid and
bounding distance consistent with a fresh recomputation. -/
theorem c7_update_zero_timestep (ops : SphereOps K) (shape : Shape K)
    (hne : shape.point_masses ≠ []) (hmass : ∀ pm ∈ shape.point_masses, 0 < pm.mass)
    (hsqrt0 : ops.sqrt 0 = 0) :
    ∃ s2, shape.update ops 0 = some s2 ∧
      s2.point_masses = shape.point_masses.map
        (fun pm => { pm with prev_force := pm.force, force := Vec3.zero }) ∧
      s2.point_masses.map (fun pm => pm.position) =
        shape.point_masses.map (fun pm => pm.position) ∧
      s2.point_masses.map (fun pm => pm.velocity) =
        shape.point_masses.map (fun pm => pm.velocity) ∧
      s2.update_centroid = s2 ∧
      s2.update_bounding_distance ops = some s2 := by
  have hupd : shape.point_masses.map (updatePointMass ops 0) = shape.point_masses := by
    rw [List.map_congr_left (fun pm _ => updatePointMass_zero ops pm hsqrt0)]
    exact List.map_id _
  obtain ⟨q, rest, hql⟩ := List.exists_cons_of_ne_nil hne
  have hbase : shape.update ops 0 =
      Shape.update_bounding_distance ops (Shape.update_centroid (Shape.zero_forces shape)) := by
    unfold Shape.update
    rw [hupd]
  have hpms3 : (Shape.update_centroid (Shape.zero_forces shape)).point_masses =
      { q with prev_force := q.force, force := Vec3.zero } ::
        rest.map (fun pm => { pm with prev_force := pm.force, force := Vec3.zero }) := by
    simp [Shape.update_centroid, Shape.zero_forces, hql]
  rw [hbase]
  unfold Shape.update_bounding_distance
  rw [hpms3]
  simp only [List.map_cons]
  refine ⟨_, rfl, ?_, ?_, ?_, ?_, ?_⟩
  · simp [Shape.zero_forces, Shape.update_centroid, hql]
  · simp [Shape.zero_forces, Shape.update_centroid, hql]
  · simp [Shape.zero_forces, Shape.update_centroid, hql]
  · simp [Shape.update_centroid, Shape.zero_forces, hql]
  · simp [Shape.update_bounding_distance, Shape.update_centroid, Shape.zero_forces, hql]

/-- Witness for C7 on a concrete one-mass shape over `ℚ`. -/
theorem c7_update_zero_timestep_witness :
    ∃ s2, Shape.update ratOps ⟨[PointMass.new ⟨1, 0, 0⟩ 1], [], Vec3.zero, 0, []⟩ 0 = some s2 ∧
      s2.point_masses.map (fun pm => pm.position) = [⟨1, 0, 0⟩] := by
  obtain ⟨s2, h1, _, h3, _, _, _⟩ := c7_update_zero_timestep ratOps
    ⟨[PointMass.new ⟨1, 0, 0⟩ 1], [], Vec3.zero, 0, []⟩
    (by decide) (by decide) (by decide)
  exact ⟨s2, h1, by simpa using h3⟩

/-! ## Claims C9 and C10 -/

/-- C9: a configuration fraction (`major_tile_fraction`,
`major_plate_fraction` or `continental_rate`) outside `[0,1]` makes
`Tectonics::from_config` fail fatally at the very start, before any plate or
point mass is created; with all three in range the validation passes and the
function proceeds to the assembly body. -/
theorem c9_fraction_validation [FloorRing K] (ops : SphereOps K)
    (config : TectonicsConfiguration K) (particle_sphere : ParticleSphere K)
    (rng : Rng K) (orders : HashOrders) (fuel : Nat) :
    ((¬ (0 ≤ config.major_tile_fraction ∧ config.major_tile_fraction ≤ 1) ∨
      ¬ (0 ≤ config.major_plate_fraction ∧ config.major_plate_fraction ≤ 1) ∨
      ¬ (0 ≤ config.continental_rate ∧ config.continental_rate ≤ 1)) →
        Tectonics.from_config ops config particle_sphere rng orders fuel = none) ∧
    ((0 ≤ config.major_tile_fraction ∧ config.major_tile_fraction ≤ 1) →
      (0 ≤ config.major_plate_fraction ∧ config.major_plate_fraction ≤ 1) →
      (0 ≤ config.continental_rate ∧ config.continental_rate ≤ 1) →
        Tectonics.from_config ops config particle_sphere rng orders fuel =
          fromConfigBody ops config particle_sphere rng orders fuel) := by
  constructor
  · rintro (h | h | h) <;> unfold Tectonics.from_config <;>
      split <;> first | rfl | split <;> first | rfl | split <;> first | rfl | tauto
  · intro h1 h2 h3
    unfold Tectonics.from_config
    rw [if_neg (by simpa using h1), if_neg (by simpa using h2), if_neg (by simpa using h3)]

/-- Witness for C9: an out-of-range `major_tile_fraction` aborts assembly,
while the in-range `config3` proceeds to the body. -/
theorem c9_fraction_validation_witness :
    Tectonics.from_config ratOps { config3 with major_tile_fraction := 2 } sphere3
        zeroRng idOrders 10 = none ∧
    Tectonics.from_config ratOps config3 sphere3 zeroRng idOrders 10 =
      fromConfigBody ratOps config3 sphere3 zeroRng idOrders 10 :=
  ⟨(c9_fraction_validation ratOps { config3 with major_tile_fraction := 2 } sphere3
      zeroRng idOrders 10).1 (Or.inl (by norm_num [config3])),
   (c9_fraction_validation ratOps config3 sphere3 zeroRng idOrders 10).2
      (by norm_num [config3]) (by norm_num [config3]) (by norm_num [config3])⟩

/-- C10: on the very first generated plate (`generated_majors =
generated_minors = 0`) the quota test divides `0/0`, which in `f32` is `NaN`;
`NaN > major_plate_fraction` is `false` for every `major_plate_fraction`, so
the major branch is selected: the plate receives the major tile quota and
`generated_majors` is incremented. -/
theorem c10_first_plate_major [FloorRing K] (ops : SphereOps K)
    (config : TectonicsConfiguration K) (particle_sphere : ParticleSphere K)
    (orders : HashOrders) (st st' : AsmState K)
    (h0 : st.generated_majors = 0) (h1 : st.generated_minors = 0)
    (hstep : assembleStep ops config particle_sphere orders st = some st') :
    quotaExceeds st.generated_majors st.generated_minors config.major_plate_fraction
        = false ∧
    (if quotaExceeds st.generated_majors st.generated_minors config.major_plate_fraction
      then minorTileCount config particle_sphere.tiles.length
      else majorTileCount config particle_sphere.tiles.length)
        = majorTileCount config particle_sphere.tiles.length ∧
    st'.generated_majors = 1 ∧ st'.generated_minors = 0 := by
  have hq : quotaExceeds st.generated_majors st.generated_minors
      config.major_plate_fraction = false := by
    rw [h0, h1]
    simp [quotaExceeds]
  refine ⟨hq, by rw [hq]; simp, ?_⟩
  unfold assembleStep at hstep
  rw [hq] at hstep
  simp only [Bool.false_eq_true, if_false] at hstep
  split at hstep
  · exact Option.noConfusion hstep
  · split at hstep
    · exact Option.noConfusion hstep
    · obtain ⟨hgm, hgmi, -, -⟩ := reseedState_eq _ _ _ _ _ _ _ _ hstep
      rw [hgm, hgmi, h0, h1]
      exact ⟨rfl, rfl⟩

/-! ## Claim C1 -/

/-- The observable plate partition: per surviving plate, the ordered
point-mass positions. -/
def platePartition (T : Tectonics K) : List (List (Vec3 K)) :=
  T.plates.map fun p => p.shape.point_masses.map fun pm => pm.position

/-- C1 (code-bug evidence): two runs of `Tectonics::from_config` with the
IDENTICAL seeded rng streams and IDENTICAL configuration on the same tile
graph, differing only in the iteration order of the `std` hash containers
(line 256 collects `available_tiles: HashSet` into a vector in hash order to
pick the next starting tile; `RandomState` is per-instance random and not
derived from the seed), both return normally but produce different plate
partitions.  Determinism from seed + configuration alone therefore fails. -/
theorem c1_hash_order_breaks_determinism :
    (Tectonics.from_config ratOps config3 sphere3 zeroRng idOrders 10).isSome = true ∧
    (Tectonics.from_config ratOps config3 sphere3 zeroRng revOrders 10).isSome = true ∧
    (Tectonics.from_config ratOps config3 sphere3 zeroRng idOrders 10).map platePartition ≠
      (Tectonics.from_config ratOps config3 sphere3 zeroRng revOrders 10).map
        platePartition := by
  exact ⟨by decide, by decide, by decide⟩

/-! ## Claim C8 -/

/-- C8 (code-bug evidence): `Tectonics::from_config` on a two-tile graph
returns one plate with two point masses and one spring, yet BOTH iteration
helpers panic on it (`none` here models the
`expect("Tried to get springs for point mass ...")` failure): assembly pushes
masses and springs directly into the shape's vectors, bypassing
`Shape::add_point_mass`/`Shape::add_spring`, which are the only functions
that maintain `spring_map`.  The helpers' own caller
(`planet/src/vertex_interpolation.rs` line 23) invokes
`par_iter_point_masses_with_springs` on exactly these plates. -/
theorem c8_iteration_helpers_panic_on_assembled_plates :
    (Tectonics.from_config ratOps config2 sphere2 zeroRng idOrders 10).map
        (fun T => T.plates.map fun p =>
          (p.shape.point_masses.length, p.shape.springs.length,
           p.shape.iter_point_masses_with_springs.isSome,
           p.shape.par_iter_point_masses_with_springs.isSome)) =
      some [(2, 1, false, false)] := by decide

/-! ## Claim C2, counterexample part -/

/-- C2 counterexample: on a four-tile graph (`0-1` adjacent, `2`, `3`
isolated; `min_plate_size = 2`) the run returns normally, but immediately
after the merge performed in the second loop iteration (the one-mass plate
grown from tile `2` is merged into the surviving plate, which grows from 2 to
3 masses) the total point-mass count across surviving plates is `3` while the
tile count is `4` — one tile is still unclaimed at that observable point, so
the claimed equality "after every undersized-plate merge" fails. -/
theorem c2_sum_after_merge_counterexample :
    (Tectonics.from_config ratOps config4 sphere4 zeroRng idOrders 10).isSome = true ∧
    ((initState sphere4 zeroRng).bind
        (assembleStep ratOps config4 sphere4 idOrders)).map
      (fun st => ((st.plate_builders.map
          (fun pb => pb.plate.shape.point_masses.length)).sum,
        st.plate_builders.length)) = some (2, 1) ∧
    (((initState sphere4 zeroRng).bind
        (assembleStep ratOps config4 sphere4 idOrders)).bind
        (assembleStep ratOps config4 sphere4 idOrders)).map
      (fun st => ((st.plate_builders.map
          (fun pb => pb.plate.shape.point_masses.length)).sum,
        st.plate_builders.length,
        st.available_tiles.length + st.adjacent_tiles.length)) = some (3, 1, 1) ∧
    sphere4.tiles.length = 4 := by
  exact ⟨by decide, by decide, by decide, by decide⟩

/-! ## Spring well-formedness invariant (claim C4) -/

/-- Every spring of the builder anchors strictly below the length of the
builder's own point-mass list. -/
def springsWF (b : PlateBuilder K) : Prop :=
  ∀ s ∈ b.plate.shape.springs,
    s.anchor_a < b.plate.shape.point_masses.length ∧
    s.anchor_b < b.plate.shape.point_masses.length

theorem lt_length_of_getElem? {α : Type} {l : List α} {i : Nat} {a : α}
    (h : l[i]? = some a) : i < l.length := by
  by_contra hc
  rw [List.getElem?_eq_none (Nat.le_of_not_lt hc)] at h
  cases h

theorem addAdjacentSprings_mem (ops : SphereOps K) (config : TectonicsConfiguration K)
    (pms : List (PointMass K)) (map : List (Nat × Nat)) (new_index : Nat)
    (adjacent : List Nat) :
    ∀ (springs0 springs1 : List (Spring K)),
      addAdjacentSprings ops config pms map new_index adjacent springs0 = some springs1 →
      ∀ s ∈ springs1, s ∈ springs0 ∨
        (s.anchor_a < pms.length ∧ s.anchor_b < pms.length) := by
  induction adjacent with
  | nil =>
    intro s0 s1 h s hs
    unfold addAdjacentSprings at h
    simp only [List.foldlM_nil] at h
    cases h
    exact Or.inl hs
  | cons t rest ih =>
    intro s0 s1 h s hs
    unfold addAdjacentSprings at h
    rw [List.foldlM_cons] at h
    obtain ⟨s2, hf, hrest⟩ := Option.bind_eq_some.mp h
    have hrest2 : addAdjacentSprings ops config pms map new_index rest s2 = some s1 := hrest
    cases hl : lookupA map t with
    | none =>
      simp only [hl] at hf
      cases hf
      exact ih _ s1 hrest2 s hs
    | some adj_index =>
      simp only [hl] at hf
      cases hnew : pms[new_index]? with
      | none =>
        simp only [hnew] at hf
        exact Option.noConfusion hf
      | some pma =>
        simp only [hnew] at hf
        cases hadj : pms[adj_index]? with
        | none =>
          simp only [hadj] at hf
          exact Option.noConfusion hf
        | some pmb =>
          simp only [hadj, Option.some.injEq] at hf
          subst hf
          rcases ih _ s1 hrest2 s hs with hmem | hb
          · rcases List.mem_append.mp hmem with hm | hm
            · exact Or.inl hm
            · right
              rw [List.mem_singleton] at hm
              subst hm
              exact ⟨lt_length_of_getElem? hnew, lt_length_of_getElem? hadj⟩
          · exact Or.inr hb

/-- Characterisation of a successful `PlateBuilder::add_point_mass`. -/
theorem add_point_mass_eq (ops : SphereOps K) (config : TectonicsConfiguration K)
    (ps : ParticleSphere K) (b b' : PlateBuilder K) (tile_index : Nat)
    (pm : PointMass K)
    (h : PlateBuilder.add_point_mass ops config ps b tile_index pm = some b') :
    ∃ tile springs1,
      ps.tiles[tile_index]? = some tile ∧
      addAdjacentSprings ops config (b.plate.shape.point_masses ++ [pm])
        (insertA b.tile_to_point_mass tile_index b.plate.shape.point_masses.length)
        b.plate.shape.point_masses.length tile.adjacent b.plate.shape.springs
        = some springs1 ∧
      b'.plate.shape.point_masses = b.plate.shape.point_masses ++ [pm] ∧
      b'.plate.shape.springs = springs1 ∧
      b'.tile_to_point_mass = insertA b.tile_to_point_mass tile_index
        b.plate.shape.point_masses.length ∧
      b'.plate.plate_type = b.plate.plate_type ∧
      b'.plate.shape.spring_map = b.plate.shape.spring_map := by
  unfold PlateBuilder.add_point_mass at h
  cases htile : ps.tiles[tile_index]? with
  | none =>
    simp only [htile] at h
    exact Option.noConfusion h
  | some tile =>
    simp only [htile] at h
    obtain ⟨springs1, hsp, hb⟩ := Option.map_eq_some'.mp h
    subst hb
    exact ⟨tile, springs1, rfl, hsp, rfl, rfl, rfl, rfl, rfl⟩

/-- Characterisation of a successful merge of one entry
(`mergePointMass`). -/
theorem mergePointMass_eq (ops : SphereOps K) (config : TectonicsConfiguration K)
    (ps : ParticleSphere K) (small target target' : PlateBuilder K) (e : Nat × Nat)
    (h : mergePointMass ops config ps small target e = some target') :
    ∃ point_mass tile springs1,
      small.plate.shape.point_masses[e.2]? = some point_mass ∧
      ps.tiles[e.1]? = some tile ∧
      addAdjacentSprings ops config
        (target.plate.shape.point_masses ++
          [⟨point_mass.position, Vec3.zero, Vec3.zero, Vec3.zero,
            if target.plate.plate_type = PlateType.Continental
            then CONTINENTAL_PARTICLE_MASS else OCEANIC_PARTICLE_MASS⟩])
        (insertA target.tile_to_point_mass e.1 target.plate.shape.point_masses.length)
        target.plate.shape.point_masses.length tile.adjacent
        target.plate.shape.springs = some springs1 ∧
      target'.plate.shape.point_masses = target.plate.shape.point_masses ++
        [⟨point_mass.position, Vec3.zero, Vec3.zero, Vec3.zero,
          if target.plate.plate_type = PlateType.Continental
          then CONTINENTAL_PARTICLE_MASS else OCEANIC_PARTICLE_MASS⟩] ∧
      target'.plate.shape.springs = springs1 ∧
      target'.tile_to_point_mass = insertA target.tile_to_point_mass e.1
        target.plate.shape.point_masses.length ∧
      target'.plate.plate_type = target.plate.plate_type := by
  unfold mergePointMass at h
  cases hq : small.plate.shape.point_masses[e.2]? with
  | none =>
    simp only [hq] at h
    exact Option.noConfusion h
  | some point_mass =>
    simp only [hq] at h
    cases htile : ps.tiles[e.1]? with
    | none =>
      simp only [htile] at h
      exact Option.noConfusion h
    | some tile =>
      simp only [htile] at h
      obtain ⟨springs1, hsp, hb⟩ := Option.map_eq_some'.mp h
      subst hb
      exact ⟨point_mass, tile, springs1, rfl, rfl, hsp, rfl, rfl, rfl, rfl⟩

theorem add_point_mass_springsWF (ops : SphereOps K) (config : TectonicsConfiguration K)
    (ps : ParticleSphere K) (b b' : PlateBuilder K) (tile_index : Nat) (pm : PointMass K)
    (h : PlateBuilder.add_point_mass ops config ps b tile_index pm = some b')
    (hwf : springsWF b) : springsWF b' := by
  obtain ⟨tile, springs1, _, hsp, hpms, hspr, _, _, _⟩ :=
    add_point_mass_eq _ _ _ _ _ _ _ h
  intro s hs
  rw [hspr] at hs
  rw [hpms]
  rcases addAdjacentSprings_mem _ _ _ _ _ _ _ _ hsp s hs with hold | hb
  · have h2 := hwf s hold
    simp only [List.length_append, List.length_cons, List.length_nil]
    omega
  · exact hb

theorem springsWF_random (ops : SphereOps K) (pt : PlateType) (rng : Rng K) :
    springsWF (PlateBuilder.new (Plate.random ops pt rng).1) := by
  intro s hs
  simp [Plate.random, PlateBuilder.new, Shape.new] at hs

theorem growPlate_springsWF (ops : SphereOps K) (config : TectonicsConfiguration K)
    (ps : ParticleSphere K) (ptype : PlateType) :
    ∀ (n : Nat) (b : PlateBuilder K) (rng : Rng K) (avail adj : List Nat)
      (b' : PlateBuilder K) (rng' : Rng K) (avail' adj' : List Nat),
      growPlate ops config ps ptype n b rng avail adj = some (b', rng', avail', adj') →
      springsWF b → springsWF b' := by
  intro n
  induction n with
  | zero =>
    intro b rng avail adj b' rng' avail' adj' h hwf
    unfold growPlate at h
    cases h
    exact hwf
  | succ n ih =>
    intro b rng avail adj b' rng' avail' adj' h hwf
    cases hemp : adj.isEmpty with
    | true =>
      unfold growPlate at h
      rw [hemp] at h
      simp only [if_true] at h
      cases h
      exact hwf
    | false =>
      obtain ⟨i, rng1, t, adj1, tile, b1, _, _, _, hadd, hrec⟩ :=
        growPlate_succ_eq _ _ _ _ _ _ _ _ _ _ h hemp
      exact ih b1 rng1 _ _ b' rng' avail' adj' hrec
        (add_point_mass_springsWF _ _ _ _ _ _ _ hadd hwf)

theorem mergePointMass_springsWF (ops : SphereOps K) (config : TectonicsConfiguration K)
    (ps : ParticleSphere K) (small target target' : PlateBuilder K) (e : Nat × Nat)
    (h : mergePointMass ops config ps small target e = some target')
    (hwf : springsWF target) : springsWF target' := by
  obtain ⟨point_mass, tile, springs1, _, _, hsp, hpms, hspr, _, _⟩ :=
    mergePointMass_eq _ _ _ _ _ _ _ h
  intro s hs
  rw [hspr] at hs
  rw [hpms]
  rcases addAdjacentSprings_mem _ _ _ _ _ _ _ _ hsp s hs with hold | hb
  · have h2 := hwf s hold
    simp only [List.length_append, List.length_cons, List.length_nil]
    omega
  · exact hb

theorem mergeLoop_springsWF (ops : SphereOps K) (config : TectonicsConfiguration K)
    (ps : ParticleSphere K) (small : PlateBuilder K) :
    ∀ (entries : List (Nat × Nat)) (target target' : PlateBuilder K),
      mergeLoop ops config ps small entries target = some target' →
      springsWF target → springsWF target' := by
  intro entries
  induction entries with
  | nil =>
    intro target target' h hwf
    unfold mergeLoop at h
    simp only [List.foldlM_nil] at h
    cases h
    exact hwf
  | cons e rest ih =>
    intro target target' h hwf
    unfold mergeLoop at h
    rw [List.foldlM_cons] at h
    obtain ⟨t1, hm, hrest⟩ := Option.bind_eq_some.mp h
    have hrest2 : mergeLoop ops config ps small rest t1 = some target' := hrest
    exact ih t1 target' hrest2 (mergePointMass_springsWF _ _ _ _ _ _ _ hm hwf)

theorem assembleStep_springsWF [FloorRing K] (ops : SphereOps K)
    (config : TectonicsConfiguration K) (ps : ParticleSphere K) (orders : HashOrders)
    (st st' : AsmState K) (h : assembleStep ops config ps orders st = some st')
    (hwf : ∀ b ∈ st.plate_builders, springsWF b) :
    ∀ b ∈ st'.plate_builders, springsWF b := by
  unfold assembleStep at h
  split at h
  · exact Option.noConfusion h
  · rename_i b rng2 available1 adjacent1 hgrow
    split at h
    · exact Option.noConfusion h
    · rename_i pair builders1 hc1 hplace
      obtain ⟨-, -, hb1, -⟩ := reseedState_eq _ _ _ _ _ _ _ _ h
      rw [hb1]
      have hbWF : springsWF b :=
        growPlate_springsWF _ _ _ _ _ _ _ _ _ _ _ _ _ hgrow
          (springsWF_random _ _ _)
      rcases placeBuilder_eq _ _ _ _ _ _ _ _ hplace with
        ⟨-, heq⟩ | ⟨-, -, heq⟩ |
        ⟨-, -, pm0, ci, target, target1, -, -, htgt, hml, heq⟩
      · cases heq
        intro x hx
        rcases List.mem_append.mp hx with hx | hx
        · exact hwf x hx
        · rcases List.mem_singleton.mp hx with rfl
          exact hbWF
      · cases heq
        exact hwf
      · cases heq
        intro x hx
        rcases List.mem_or_eq_of_mem_set hx with hx | rfl
        · exact hwf x hx
        · exact mergeLoop_springsWF _ _ _ _ _ _ _ hml
            (hwf target (List.getElem?_mem htgt))

theorem assembleLoop_springsWF [FloorRing K] (ops : SphereOps K)
    (config : TectonicsConfiguration K) (ps : ParticleSphere K) (orders : HashOrders) :
    ∀ (fuel : Nat) (st : AsmState K) (builders : List (PlateBuilder K)),
      assembleLoop ops config ps orders fuel st = some builders →
      (∀ b ∈ st.plate_builders, springsWF b) → ∀ b ∈ builders, springsWF b := by
  intro fuel
  induction fuel with
  | zero =>
    intro st builders h _
    unfold assembleLoop at h
    cases h
  | succ fuel ih =>
    intro st builders h hwf
    unfold assembleLoop at h
    split at h
    · cases hstep : assembleStep ops config ps orders st with
      | none => rw [hstep] at h; exact Option.noConfusion h
      | some st1 =>
        rw [hstep] at h
        exact ih st1 builders h (assembleStep_springsWF _ _ _ _ _ _ hstep hwf)
    · cases h
      exact hwf

theorem initState_eq (ps : ParticleSphere K) (rng : Rng K) (st0 : AsmState K)
    (h : initState ps rng = some st0) :
    st0.plate_builders = [] ∧ st0.generated_majors = 0 ∧ st0.generated_minors = 0 ∧
    ∃ (starting_tile : Nat) (rng1 : Rng K),
      rng.randomRange ps.tiles.length = some (starting_tile, rng1) ∧
      st0.available_tiles = (List.range ps.tiles.length).erase starting_tile ∧
      st0.adjacent_tiles = [starting_tile] := by
  unfold initState at h
  cases hr : rng.randomRange ps.tiles.length with
  | none =>
    rw [hr] at h
    exact Option.noConfusion h
  | some pair =>
    obtain ⟨starting_tile, rng1⟩ := pair
    simp only [hr] at h
    cases h
    exact ⟨rfl, rfl, rfl, starting_tile, rng1, rfl, rfl, rfl⟩

/-! ## Claim C4 -/

/-- C4: every spring of every plate produced by `Tectonics::from_config` has
both anchor indices strictly below the length of the owning shape's
point-mass list (springs are stored inside their own plate's shape, so they
structurally cannot reference another plate; the in-bounds property is what
remains to prove, including for springs created by undersized-plate
merges). -/
theorem c4_spring_anchors_in_bounds [FloorRing K] (ops : SphereOps K)
    (config : TectonicsConfiguration K) (ps : ParticleSphere K) (rng : Rng K)
    (orders : HashOrders) (fuel : Nat) (T : Tectonics K)
    (h : Tectonics.from_config ops config ps rng orders fuel = some T) :
    ∀ p ∈ T.plates, ∀ s ∈ p.shape.springs,
      s.anchor_a < p.shape.point_masses.length ∧
      s.anchor_b < p.shape.point_masses.length := by
  unfold Tectonics.from_config at h
  split at h
  · exact Option.noConfusion h
  split at h
  · exact Option.noConfusion h
  split at h
  · exact Option.noConfusion h
  unfold fromConfigBody at h
  cases hinit : initState ps rng with
  | none =>
    simp only [hinit] at h
    exact Option.noConfusion h
  | some st0 =>
    simp only [hinit] at h
    cases hloop : assembleLoop ops config ps orders fuel st0 with
    | none =>
      simp only [hloop] at h
      exact Option.noConfusion h
    | some plate_builders =>
      simp only [hloop] at h
      obtain ⟨hb0, -, -, -⟩ := initState_eq _ _ _ hinit
      have hWF : ∀ b ∈ plate_builders, springsWF b := by
        refine assembleLoop_springsWF _ _ _ _ _ _ _ hloop ?_
        rw [hb0]
        intro x hx
        cases hx
      split at h
      · cases h
        intro p hp s hs
        obtain ⟨pb, hpb, rfl⟩ := List.mem_map.mp hp
        exact hWF pb hpb s hs
      · exact Option.noConfusion h

/-- Witness for C4 at a concrete two-tile run (one plate, one real spring). -/
theorem c4_spring_anchors_in_bounds_witness :
    ∃ T, Tectonics.from_config ratOps config2 sphere2 zeroRng idOrders 10 = some T ∧
      ∀ p ∈ T.plates, ∀ s ∈ p.shape.springs,
        s.anchor_a < p.shape.point_masses.length ∧
        s.anchor_b < p.shape.point_masses.length := by
  have h : (Tectonics.from_config ratOps config2 sphere2 zeroRng idOrders 10).isSome
      = true := by decide
  obtain ⟨T, hT⟩ := Option.isSome_iff_exists.mp h
  exact ⟨T, hT, c4_spring_anchors_in_bounds _ _ _ _ _ _ _ hT⟩

/-! ## Unit-norm preservation (claim C3) -/

theorem Vec3.normSq_nonneg (v : Vec3 K) : 0 ≤ v.normSq := by
  unfold Vec3.normSq Vec3.dot
  nlinarith [mul_self_nonneg v.x, mul_self_nonneg v.y, mul_self_nonneg v.z]

theorem Vec3.dot_tangent (v p : Vec3 K) (hp : p.normSq = 1) :
    (v - Vec3.smul (v.dot p) p).dot p = 0 := by
  unfold Vec3.normSq at hp
  unfold Vec3.dot Vec3.smul at *
  simp only [Vec3.sub_def]
  linear_combination (-(v.x * p.x + v.y * p.y + v.z * p.z)) * hp

theorem Vec3.normSq_cross (a b : Vec3 K) :
    (a.cross b).normSq = a.normSq * b.normSq - (a.dot b) ^ 2 := by
  unfold Vec3.normSq Vec3.cross Vec3.dot
  ring

theorem Vec3.normSq_sdiv (v : Vec3 K) (c : K) :
    (v.sdiv c).normSq = v.normSq / (c * c) := by
  unfold Vec3.normSq Vec3.sdiv Vec3.dot
  ring

theorem Vec3.normalize_normSq_of_one (ops : SphereOps K) (u : Vec3 K)
    (hu : u.normSq = 1) (hs1 : ops.sqrt 1 * ops.sqrt 1 = 1) :
    (u.normalize ops).normSq = 1 := by
  unfold Vec3.normalize Vec3.length
  rw [Vec3.normSq_sdiv, hu, hs1]
  norm_num

/-- Norm of glam's quaternion-vector rotation: a pure polynomial identity,
`|q v q⁻¹|² = |q|⁴ |v|²` for the explicit `mul_vec3` formula. -/
theorem Quat.mul_vec3_normSq (q : Quat K) (v : Vec3 K) :
    (q.mul_vec3 v).normSq =
      (q.w * q.w + (q.x * q.x + q.y * q.y + q.z * q.z)) ^ 2 * v.normSq := by
  unfold Quat.mul_vec3 Vec3.normSq Vec3.dot Vec3.cross Vec3.smul
  simp only [Vec3.add_def]
  ring

/-- The geodesic-rotation step of `Shape::update` keeps the position on the
unit sphere: the rotation axis is the normalised cross product of the (unit)
position with the nonzero tangential displacement, the axis-angle quaternion
is unit by `cos² + sin² = 1`, and the final explicit normalisation divides a
unit vector by `sqrt 1`. -/
theorem position_step_normSq (ops : SphereOps K) (p disp : Vec3 K)
    (hs : ∀ x : K, 0 ≤ x → 0 ≤ ops.sqrt x ∧ ops.sqrt x * ops.sqrt x = x)
    (hpy : ∀ x : K, ops.cos x * ops.cos x + ops.sin x * ops.sin x = 1)
    (hp : p.normSq = 1) :
    (if 0 < (disp - Vec3.smul (disp.dot p) p).length ops then
        ((Quat.from_axis_angle ops
            ((p.cross (disp - Vec3.smul (disp.dot p) p)).normalize ops)
            ((disp - Vec3.smul (disp.dot p) p).length ops)).mul_vec3 p).normalize ops
      else p).normSq = 1 := by
  split
  · next hangle =>
    set td := disp - Vec3.smul (disp.dot p) p with htd
    have htdnn : 0 ≤ td.normSq := Vec3.normSq_nonneg td
    have htdnz : td.normSq ≠ 0 := by
      intro h0
      rw [Vec3.length, h0] at hangle
      have hz : ops.sqrt 0 * ops.sqrt 0 = 0 := (hs 0 le_rfl).2
      rw [mul_self_eq_zero] at hz
      rw [hz] at hangle
      exact lt_irrefl 0 hangle
    have hdot : td.dot p = 0 := Vec3.dot_tangent disp p hp
    have hpd : p.dot td = 0 := by
      unfold Vec3.dot at hdot ⊢
      linarith [hdot]
    have hcross : (p.cross td).normSq = td.normSq := by
      rw [Vec3.normSq_cross, hp, hpd]
      ring
    have hcnn : 0 ≤ (p.cross td).normSq := Vec3.normSq_nonneg _
    have hcnz : (p.cross td).normSq ≠ 0 := by rw [hcross]; exact htdnz
    have haxis : ((p.cross td).normalize ops).normSq = 1 := by
      unfold Vec3.normalize Vec3.length
      rw [Vec3.normSq_sdiv, (hs _ hcnn).2]
      exact div_self hcnz
    set axis := (p.cross td).normalize ops with haxisdef
    set angle := td.length ops with hangledef
    have hqnorm :
        (ops.cos (angle / 2)) * (ops.cos (angle / 2)) +
          ((axis.x * ops.sin (angle / 2)) * (axis.x * ops.sin (angle / 2)) +
           (axis.y * ops.sin (angle / 2)) * (axis.y * ops.sin (angle / 2)) +
           (axis.z * ops.sin (angle / 2)) * (axis.z * ops.sin (angle / 2))) = 1 := by
      have hax : axis.x * axis.x + axis.y * axis.y + axis.z * axis.z = 1 := by
        have := haxis
        unfold Vec3.normSq Vec3.dot at this
        exact this
      calc (ops.cos (angle / 2)) * (ops.cos (angle / 2)) +
            ((axis.x * ops.sin (angle / 2)) * (axis.x * ops.sin (angle / 2)) +
             (axis.y * ops.sin (angle / 2)) * (axis.y * ops.sin (angle / 2)) +
             (axis.z * ops.sin (angle / 2)) * (axis.z * ops.sin (angle / 2)))
          = (ops.cos (angle / 2)) * (ops.cos (angle / 2)) +
            (axis.x * axis.x + axis.y * axis.y + axis.z * axis.z) *
              ((ops.sin (angle / 2)) * (ops.sin (angle / 2))) := by ring
        _ = 1 := by rw [hax]; rw [one_mul]; exact hpy (angle / 2)
    have hrot : ((Quat.from_axis_angle ops axis angle).mul_vec3 p).normSq = 1 := by
      rw [Quat.mul_vec3_normSq, hp]
      unfold Quat.from_axis_angle
      simp only []
      rw [mul_one]
      calc (ops.cos (angle / 2) * ops.cos (angle / 2) +
            (axis.x * ops.sin (angle / 2) * (axis.x * ops.sin (angle / 2)) +
             axis.y * ops.sin (angle / 2) * (axis.y * ops.sin (angle / 2)) +
             axis.z * ops.sin (angle / 2) * (axis.z * ops.sin (angle / 2)))) ^ 2
          = 1 ^ 2 := by rw [hqnorm]
        _ = 1 := one_pow 2
    exact Vec3.normalize_normSq_of_one ops _ hrot (hs 1 zero_le_one).2
  · exact hp

/-- The per-mass Verlet step preserves unit squared norm of the position. -/
theorem updatePointMass_normSq (ops : SphereOps K) (dt : K) (pm : PointMass K)
    (hs : ∀ x : K, 0 ≤ x → 0 ≤ ops.sqrt x ∧ ops.sqrt x * ops.sqrt x = x)
    (hpy : ∀ x : K, ops.cos x * ops.cos x + ops.sin x * ops.sin x = 1)
    (hp : pm.position.normSq = 1) :
    (updatePointMass ops dt pm).position.normSq = 1 := by
  unfold updatePointMass
  exact position_step_normSq ops pm.position _ hs hpy hp

/-- Every point-mass position of the builder has unit squared norm. -/
def builderUnit (b : PlateBuilder K) : Prop :=
  ∀ pm ∈ b.plate.shape.point_masses, pm.position.normSq = 1

theorem add_point_mass_unit (ops : SphereOps K) (config : TectonicsConfiguration K)
    (ps : ParticleSphere K) (b b' : PlateBuilder K) (tile_index : Nat) (pm : PointMass K)
    (h : PlateBuilder.add_point_mass ops config ps b tile_index pm = some b')
    (hpm : pm.position.normSq = 1) (hu : builderUnit b) : builderUnit b' := by
  obtain ⟨tile, springs1, _, _, hpms, _, _, _, _⟩ := add_point_mass_eq _ _ _ _ _ _ _ h
  intro q hq
  rw [hpms] at hq
  rcases List.mem_append.mp hq with hq | hq
  · exact hu q hq
  · rcases List.mem_singleton.mp hq with rfl
    exact hpm

theorem builderUnit_random (ops : SphereOps K) (pt : PlateType) (rng : Rng K) :
    builderUnit (PlateBuilder.new (Plate.random ops pt rng).1) := by
  intro q hq
  simp [Plate.random, PlateBuilder.new, Shape.new] at hq

theorem growPlate_unit (ops : SphereOps K) (config : TectonicsConfiguration K)
    (ps : ParticleSphere K) (ptype : PlateType)
    (HU : ∀ t ∈ ps.tiles, t.normal.normSq = 1) :
    ∀ (n : Nat) (b : PlateBuilder K) (rng : Rng K) (avail adj : List Nat)
      (b' : PlateBuilder K) (rng' : Rng K) (avail' adj' : List Nat),
      growPlate ops config ps ptype n b rng avail adj = some (b', rng', avail', adj') →
      builderUnit b → builderUnit b' := by
  intro n
  induction n with
  | zero =>
    intro b rng avail adj b' rng' avail' adj' h hu
    unfold growPlate at h
    cases h
    exact hu
  | succ n ih =>
    intro b rng avail adj b' rng' avail' adj' h hu
    cases hemp : adj.isEmpty with
    | true =>
      unfold growPlate at h
      rw [hemp] at h
      simp only [if_true] at h
      cases h
      exact hu
    | false =>
      obtain ⟨i, rng1, t, adj1, tile, b1, _, _, htile, hadd, hrec⟩ :=
        growPlate_succ_eq _ _ _ _ _ _ _ _ _ _ h hemp
      have htu : tile.normal.normSq = 1 := HU tile (List.getElem?_mem htile)
      exact ih b1 rng1 _ _ b' rng' avail' adj' hrec
        (add_point_mass_unit _ _ _ _ _ _ _ hadd htu hu)

theorem mergePointMass_unit (ops : SphereOps K) (config : TectonicsConfiguration K)
    (ps : ParticleSphere K) (small target target' : PlateBuilder K) (e : Nat × Nat)
    (h : mergePointMass ops config ps small target e = some target')
    (hsmall : builderUnit small) (htarget : builderUnit target) :
    builderUnit target' := by
  obtain ⟨point_mass, tile, springs1, hq, _, _, hpms, _, _, _⟩ :=
    mergePointMass_eq _ _ _ _ _ _ _ h
  intro q hqm
  rw [hpms] at hqm
  rcases List.mem_append.mp hqm with hqm | hqm
  · exact htarget q hqm
  · rcases List.mem_singleton.mp hqm with rfl
    exact hsmall point_mass (List.getElem?_mem hq)

theorem mergeLoop_unit (ops : SphereOps K) (config : TectonicsConfiguration K)
    (ps : ParticleSphere K) (small : PlateBuilder K) :
    ∀ (entries : List (Nat × Nat)) (target target' : PlateBuilder K),
      mergeLoop ops config ps small entries target = some target' →
      builderUnit small → builderUnit target → builderUnit target' := by
  intro entries
  induction entries with
  | nil =>
    intro target target' h _ htarget
    unfold mergeLoop at h
    simp only [List.foldlM_nil] at h
    cases h
    exact htarget
  | cons e rest ih =>
    intro target target' h hsmall htarget
    unfold mergeLoop at h
    rw [List.foldlM_cons] at h
    obtain ⟨t1, hm, hrest⟩ := Option.bind_eq_some.mp h
    have hrest2 : mergeLoop ops config ps small rest t1 = some target' := hrest
    exact ih t1 target' hrest2 hsmall
      (mergePointMass_unit _ _ _ _ _ _ _ hm hsmall htarget)

theorem assembleStep_unit [FloorRing K] (ops : SphereOps K)
    (config : TectonicsConfiguration K) (ps : ParticleSphere K) (orders : HashOrders)
    (st st' : AsmState K)
    (HU : ∀ t ∈ ps.tiles, t.normal.normSq = 1)
    (h : assembleStep ops config ps orders st = some st')
    (hu : ∀ b ∈ st.plate_builders, builderUnit b) :
    ∀ b ∈ st'.plate_builders, builderUnit b := by
  unfold assembleStep at h
  split at h
  · exact Option.noConfusion h
  · rename_i b rng2 available1 adjacent1 hgrow
    split at h
    · exact Option.noConfusion h
    · rename_i pair builders1 hc1 hplace
      obtain ⟨-, -, hb1, -⟩ := reseedState_eq _ _ _ _ _ _ _ _ h
      rw [hb1]
      have hbU : builderUnit b :=
        growPlate_unit _ _ _ _ HU _ _ _ _ _ _ _ _ _ hgrow (builderUnit_random _ _ _)
      rcases placeBuilder_eq _ _ _ _ _ _ _ _ hplace with
        ⟨-, heq⟩ | ⟨-, -, heq⟩ |
        ⟨-, -, pm0, ci, target, target1, -, -, htgt, hml, heq⟩
      · cases heq
        intro x hx
        rcases List.mem_append.mp hx with hx | hx
        · exact hu x hx
        · rcases List.mem_singleton.mp hx with rfl
          exact hbU
      · cases heq
        exact hu
      · cases heq
        intro x hx
        rcases List.mem_or_eq_of_mem_set hx with hx | rfl
        · exact hu x hx
        · exact mergeLoop_unit _ _ _ _ _ _ _ hml hbU
            (hu target (List.getElem?_mem htgt))

theorem assembleLoop_unit [FloorRing K] (ops : SphereOps K)
    (config : TectonicsConfiguration K) (ps : ParticleSphere K) (orders : HashOrders)
    (HU : ∀ t ∈ ps.tiles, t.normal.normSq = 1) :
    ∀ (fuel : Nat) (st : AsmState K) (builders : List (PlateBuilder K)),
      assembleLoop ops config ps orders fuel st = some builders →
      (∀ b ∈ st.plate_builders, builderUnit b) → ∀ b ∈ builders, builderUnit b := by
  intro fuel
  induction fuel with
  | zero =>
    intro st builders h _
    unfold assembleLoop at h
    cases h
  | succ fuel ih =>
    intro st builders h hu
    unfold assembleLoop at h
    split at h
    · cases hstep : assembleStep ops config ps orders st with
      | none => rw [hstep] at h; exact Option.noConfusion h
      | some st1 =>
        rw [hstep] at h
        exact ih st1 builders h (assembleStep_unit _ _ _ _ _ _ HU hstep hu)
    · cases h
      exact hu

theorem fromConfig_unit [FloorRing K] (ops : SphereOps K)
    (config : TectonicsConfiguration K) (ps : ParticleSphere K) (rng : Rng K)
    (orders : HashOrders) (fuel : Nat) (T : Tectonics K)
    (HU : ∀ t ∈ ps.tiles, t.normal.normSq = 1)
    (h : Tectonics.from_config ops config ps rng orders fuel = some T) :
    ∀ p ∈ T.plates, ∀ pm ∈ p.shape.point_masses, pm.position.normSq = 1 := by
  unfold Tectonics.from_config at h
  split at h
  · exact Option.noConfusion h
  split at h
  · exact Option.noConfusion h
  split at h
  · exact Option.noConfusion h
  unfold fromConfigBody at h
  cases hinit : initState ps rng with
  | none =>
    simp only [hinit] at h
    exact Option.noConfusion h
  | some st0 =>
    simp only [hinit] at h
    cases hloop : assembleLoop ops config ps orders fuel st0 with
    | none =>
      simp only [hloop] at h
      exact Option.noConfusion h
    | some plate_builders =>
      simp only [hloop] at h
      obtain ⟨hb0, -, -, -⟩ := initState_eq _ _ _ hinit
      have hUb : ∀ b ∈ plate_builders, builderUnit b := by
        refine assembleLoop_unit _ _ _ _ HU _ _ _ hloop ?_
        rw [hb0]
        intro x hx
        cases hx
      split at h
      · cases h
        intro p hp pm hpm
        obtain ⟨pb, hpb, rfl⟩ := List.mem_map.mp hp
        exact hUb pb hpb pm hpm
      · exact Option.noConfusion h

theorem update_bounding_distance_pms (ops : SphereOps K) (s s' : Shape K)
    (h : s.update_bounding_distance ops = some s') :
    s'.point_masses = s.point_masses := by
  unfold Shape.update_bounding_distance at h
  cases hm : s.point_masses.map
      (fun pm => ops.acos (clampf (pm.position.dot s.centroid) (-1) 1)) with
  | nil => rw [hm] at h; exact Option.noConfusion h
  | cons d ds =>
    rw [hm] at h
    cases h
    rfl

theorem shape_update_unit (ops : SphereOps K) (shape s' : Shape K) (dt : K)
    (hs : ∀ x : K, 0 ≤ x → 0 ≤ ops.sqrt x ∧ ops.sqrt x * ops.sqrt x = x)
    (hpy : ∀ x : K, ops.cos x * ops.cos x + ops.sin x * ops.sin x = 1)
    (hunit : ∀ pm ∈ shape.point_masses, pm.position.normSq = 1)
    (h : shape.update ops dt = some s') :
    ∀ pm ∈ s'.point_masses, pm.position.normSq = 1 := by
  unfold Shape.update at h
  have hpms := update_bounding_distance_pms _ _ _ h
  intro q hq
  rw [hpms] at hq
  simp only [Shape.update_centroid, Shape.zero_forces, List.map_map, List.mem_map,
    Function.comp] at hq
  obtain ⟨q1, hq1, rfl⟩ := hq
  exact updatePointMass_normSq ops dt q1 hs hpy (hunit q1 hq1)

/-! ## Claim C3 -/

/-- C3: given unit tile normals, every point-mass position has unit squared
norm at every observable point: (i) in every plate of every normal
`Tectonics::from_config` return (covering assembly and the merges it
performs), (ii) after any undersized-plate merge loop in isolation, and
(iii) after every `Shape::update`, where the abstract `sqrt`/`cos`/`sin`
satisfy their defining real properties (exact in ℝ; "within floating
tolerance" in `f32`). -/
theorem c3_unit_norm_positions :
    (∀ (K : Type) [LinearOrderedField K] [FloorRing K] (ops : SphereOps K)
        (config : TectonicsConfiguration K) (ps : ParticleSphere K) (rng : Rng K)
        (orders : HashOrders) (fuel : Nat) (T : Tectonics K),
        (∀ t ∈ ps.tiles, t.normal.normSq = 1) →
        Tectonics.from_config ops config ps rng orders fuel = some T →
        ∀ p ∈ T.plates, ∀ pm ∈ p.shape.point_masses, pm.position.normSq = 1) ∧
    (∀ (K : Type) [LinearOrderedField K] (ops : SphereOps K)
        (config : TectonicsConfiguration K) (ps : ParticleSphere K)
        (small : PlateBuilder K) (entries : List (Nat × Nat))
        (target target' : PlateBuilder K),
        builderUnit small → builderUnit target →
        mergeLoop ops config ps small entries target = some target' →
        builderUnit target') ∧
    (∀ (K : Type) [LinearOrderedField K] (ops : SphereOps K) (shape s' : Shape K)
        (dt : K),
        (∀ x : K, 0 ≤ x → 0 ≤ ops.sqrt x ∧ ops.sqrt x * ops.sqrt x = x) →
        (∀ x : K, ops.cos x * ops.cos x + ops.sin x * ops.sin x = 1) →
        (∀ pm ∈ shape.point_masses, pm.position.normSq = 1) →
        shape.update ops dt = some s' →
        ∀ pm ∈ s'.point_masses, pm.position.normSq = 1) := by
  refine ⟨?_, ?_, ?_⟩
  · intro K _ _ ops config ps rng orders fuel T HU h
    exact fromConfig_unit ops config ps rng orders fuel T HU h
  · intro K _ ops config ps small entries target target' hsmall htarget h
    exact mergeLoop_unit ops config ps small entries target target' h hsmall htarget
  · intro K _ ops shape s' dt hs hpy hunit h
    exact shape_update_unit ops shape s' dt hs hpy hunit h

/-- Witness for C3: the two-tile assembly over `ℚ` (unit normals), the
trivial merge loop, and a concrete one-mass `Shape::update` over `ℝ` with
the genuine `Real.sqrt`/`arccos`/`cos`/`sin`. -/
theorem c3_unit_norm_positions_witness :
    (∃ T, Tectonics.from_config ratOps config2 sphere2 zeroRng idOrders 10 = some T ∧
        ∀ p ∈ T.plates, ∀ pm ∈ p.shape.point_masses, pm.position.normSq = 1) ∧
    (∃ target', mergeLoop ratOps config2 sphere2
        (PlateBuilder.new (Plate.random ratOps PlateType.Oceanic zeroRng).1) []
        (PlateBuilder.new (Plate.random ratOps PlateType.Oceanic zeroRng).1)
        = some target' ∧ builderUnit target') ∧
    (∃ s', Shape.update (⟨Real.sqrt, Real.arccos, Real.cos, Real.sin, 0⟩ : SphereOps ℝ)
        ⟨[PointMass.new ⟨1, 0, 0⟩ 1], [], Vec3.zero, 0, []⟩ 1 = some s' ∧
        ∀ pm ∈ s'.point_masses, pm.position.normSq = 1) := by
  refine ⟨?_, ?_, ?_⟩
  · have h : (Tectonics.from_config ratOps config2 sphere2 zeroRng idOrders 10).isSome
        = true := by decide
    obtain ⟨T, hT⟩ := Option.isSome_iff_exists.mp h
    exact ⟨T, hT, c3_unit_norm_positions.1 ℚ ratOps config2 sphere2 zeroRng idOrders
      10 T (by decide) hT⟩
  · refine ⟨PlateBuilder.new (Plate.random ratOps PlateType.Oceanic zeroRng).1,
      rfl, ?_⟩
    exact c3_unit_norm_positions.2.1 ℚ ratOps config2 sphere2
      (PlateBuilder.new (Plate.random ratOps PlateType.Oceanic zeroRng).1) []
      (PlateBuilder.new (Plate.random ratOps PlateType.Oceanic zeroRng).1) _
      (by simp [builderUnit, Plate.random, PlateBuilder.new, Shape.new])
      (by simp [builderUnit, Plate.random, PlateBuilder.new, Shape.new]) rfl
  · cases h : Shape.update (⟨Real.sqrt, Real.arccos, Real.cos, Real.sin, 0⟩ : SphereOps ℝ)
        ⟨[PointMass.new ⟨1, 0, 0⟩ 1], [], Vec3.zero, 0, []⟩ 1 with
    | none =>
      exfalso
      revert h
      simp [Shape.update, Shape.update_bounding_distance, Shape.zero_forces,
        Shape.update_centroid]
    | some s' =>
      refine ⟨s', rfl, ?_⟩
      refine c3_unit_norm_positions.2.2 ℝ _ _ s' 1 ?_ ?_ ?_ h
      · intro x hx
        exact ⟨Real.sqrt_nonneg x, Real.mul_self_sqrt hx⟩
      · intro x
        have h2 := Real.sin_sq_add_cos_sq x
        nlinarith [h2]
      · intro pm hpm
        rcases List.mem_singleton.mp hpm with rfl
        norm_num [PointMass.new, Vec3.normSq, Vec3.dot]

/-! ## Tile-conservation invariant (claim C2) -/

/-- The tiles recorded in a builder's back-reference map. -/
def keysOf (b : PlateBuilder K) : List Nat := b.tile_to_point_mass.map Prod.fst

/-- The builder's back-reference map has exactly one entry per point mass. -/
def builderCount (b : PlateBuilder K) : Prop :=
  b.tile_to_point_mass.length = b.plate.shape.point_masses.length

theorem eraseIdx_perm {α : Type} :
    ∀ (m : List α) (i : Nat) (x : α), m[i]? = some x → m.Perm (x :: m.eraseIdx i) := by
  intro m
  induction m with
  | nil => intro i x h; simp at h
  | cons a rest ih =>
    intro i x h
    cases i with
    | zero =>
      simp only [List.getElem?_cons_zero, Option.some.injEq] at h
      subst h
      simp [List.eraseIdx]
    | succ n =>
      simp only [List.getElem?_cons_succ] at h
      have h2 := (ih n x h).cons a
      have h3 : (a :: (x :: rest.eraseIdx n)).Perm (x :: (a :: rest.eraseIdx n)) :=
        List.Perm.swap x a _
      exact h2.trans h3

theorem set_perm {α : Type} :
    ∀ (m : List α) (i : Nat) (x : α), i < m.length →
      (m.set i x).Perm (x :: m.eraseIdx i) := by
  intro m
  induction m with
  | nil => intro i x h; simp at h
  | cons a rest ih =>
    intro i x h
    cases i with
    | zero => simp [List.eraseIdx]
    | succ n =>
      simp only [List.length_cons, Nat.add_lt_add_iff_right] at h
      have h2 := (ih n x h).cons a
      have h3 : (a :: (x :: rest.eraseIdx n)).Perm (x :: (a :: rest.eraseIdx n)) :=
        List.Perm.swap x a _
      exact h2.trans h3

theorem swapRemoveGet_perm {α : Type} (l : List α) (i : Nat) (v : α) (l' : List α)
    (h : swapRemoveGet l i = some (v, l')) : l.Perm (v :: l') := by
  unfold swapRemoveGet at h
  cases hv : l[i]? with
  | none => rw [hv] at h; exact Option.noConfusion h
  | some w =>
    simp only [hv, Option.some.injEq, Prod.mk.injEq] at h
    obtain ⟨h1, h2⟩ := h
    subst h1
    subst h2
    have hi : i < l.length := lt_length_of_getElem? hv
    have hnn : l ≠ [] := by
      intro hl
      rw [hl] at hi
      exact Nat.not_lt_zero i hi
    have hlastD : l.getLastD w = l.getLast hnn := by
      rw [List.getLastD_eq_getLast?, List.getLast?_eq_getLast l hnn]
      rfl
    have hdec : l.dropLast ++ [l.getLast hnn] = l := List.dropLast_concat_getLast hnn
    have hbase : l.Perm (l.getLast hnn :: l.dropLast) := by
      conv_lhs => rw [← hdec]
      exact List.perm_append_singleton _ _
    rcases Nat.lt_or_ge i (l.length - 1) with hcase | hcase
    · -- the removed slot is not the last one: the last element moves into it
      have hidl : i < l.dropLast.length := by
        rw [List.length_dropLast]
        exact hcase
      have hmi : l.dropLast[i]? = some w := by
        rw [List.getElem?_dropLast]
        rw [if_pos hcase]
        exact hv
      have hset := set_perm l.dropLast i (l.getLastD w) hidl
      have hm := (eraseIdx_perm l.dropLast i w hmi).cons (l.getLast hnn)
      have hswap : (l.getLast hnn :: (w :: l.dropLast.eraseIdx i)).Perm
          (w :: (l.getLast hnn :: l.dropLast.eraseIdx i)) := List.Perm.swap _ _ _
      have hlast2 : (w :: (l.getLast hnn :: l.dropLast.eraseIdx i)).Perm
          (w :: l.dropLast.set i (l.getLastD w)) := by
        rw [hlastD]
        exact ((set_perm l.dropLast i (l.getLast hnn) hidl).cons w).symm
      exact ((hbase.trans hm).trans hswap).trans hlast2
    · -- the removed slot is the last one: `set` is out of range, nothing moves
      have hsetz : l.dropLast.set i (l.getLastD w) = l.dropLast :=
        List.set_eq_of_length_le (by rw [List.length_dropLast]; exact hcase)
      rw [hsetz]
      have hvlast : w = l.getLast hnn := by
        have hieq : i = l.length - 1 := Nat.le_antisymm (by omega) hcase
        rw [List.getLast_eq_getElem]
        rw [hieq] at hv
        have hlen : l.length - 1 < l.length := by omega
        have hg : l[l.length - 1]? = some l[l.length - 1] :=
          List.getElem?_eq_getElem hlen
        rw [hg] at hv
        exact (Option.some.inj hv).symm
      rw [hvlast]
      exact hbase

theorem extendAdj_perm :
    ∀ (ts avail adj : List Nat),
      ((extendAdj avail adj ts).1 ++ (extendAdj avail adj ts).2).Perm (avail ++ adj) := by
  intro ts
  induction ts with
  | nil => intro avail adj; exact List.Perm.refl _
  | cons t rest ih =>
    intro avail adj
    unfold extendAdj
    split
    · next hmem =>
      refine (ih _ _).trans ?_
      have h1 : (avail.erase t ++ (adj ++ [t])).Perm (avail.erase t ++ (t :: adj)) :=
        List.Perm.append_left _ (List.perm_append_singleton _ _)
      have h2 : (avail.erase t ++ (t :: adj)).Perm (t :: (avail.erase t ++ adj)) :=
        List.perm_middle
      have h3 : ((t :: avail.erase t) ++ adj).Perm (avail ++ adj) :=
        List.Perm.append_right adj (List.perm_cons_erase hmem).symm
      exact (h1.trans h2).trans h3
    · exact ih _ _

theorem insertA_fresh {α : Type} :
    ∀ (l : List (Nat × α)) (k : Nat) (v : α),
      k ∉ l.map Prod.fst → insertA l k v = l ++ [(k, v)] := by
  intro l
  induction l with
  | nil => intro k v _; rfl
  | cons p rest ih =>
    intro k v hk
    simp only [List.map_cons, List.mem_cons, not_or] at hk
    unfold insertA
    rw [if_neg (fun he => hk.1 he.symm)]
    rw [ih k v hk.2]
    rfl

theorem growPlate_count (ops : SphereOps K) (config : TectonicsConfiguration K)
    (ps : ParticleSphere K) (ptype : PlateType) :
    ∀ (n : Nat) (b : PlateBuilder K) (rng : Rng K) (avail adj : List Nat)
      (b' : PlateBuilder K) (rng' : Rng K) (avail' adj' : List Nat),
      growPlate ops config ps ptype n b rng avail adj = some (b', rng', avail', adj') →
      (keysOf b ++ avail ++ adj).Nodup →
      builderCount b →
      (keysOf b' ++ avail' ++ adj').Perm (keysOf b ++ avail ++ adj) ∧
        builderCount b' := by
  intro n
  induction n with
  | zero =>
    intro b rng avail adj b' rng' avail' adj' h hnd hbc
    unfold growPlate at h
    cases h
    exact ⟨List.Perm.refl _, hbc⟩
  | succ n ih =>
    intro b rng avail adj b' rng' avail' adj' h hnd hbc
    cases hemp : adj.isEmpty with
    | true =>
      unfold growPlate at h
      rw [hemp] at h
      simp only [if_true] at h
      cases h
      exact ⟨List.Perm.refl _, hbc⟩
    | false =>
      obtain ⟨i, rng1, t, adj1, tile, b1, hr, hsw, htile, hadd, hrec⟩ :=
        growPlate_succ_eq _ _ _ _ _ _ _ _ _ _ h hemp
      have hadjperm := swapRemoveGet_perm adj i t adj1 hsw
      have htmem : t ∈ adj := hadjperm.mem_iff.mpr (List.mem_cons_self t adj1)
      have htfresh : t ∉ keysOf b := by
        intro htk
        rw [List.append_assoc] at hnd
        rcases List.nodup_append.mp hnd with ⟨-, -, hdisj⟩
        exact hdisj htk (List.mem_append.mpr (Or.inr htmem))
      obtain ⟨tile2, springs1, htile2, hsp, hpms, hspr, hmap, _, _⟩ :=
        add_point_mass_eq _ _ _ _ _ _ _ hadd
      have hkeys1 : keysOf b1 = keysOf b ++ [t] := by
        unfold keysOf
        rw [hmap, insertA_fresh _ _ _ htfresh, List.map_append]
        rfl
      have hcount1 : builderCount b1 := by
        unfold builderCount
        rw [hmap, insertA_fresh _ _ _ htfresh, hpms]
        simp only [List.length_append, List.length_cons, List.length_nil]
        unfold builderCount at hbc
        omega
      have hext := extendAdj_perm tile.adjacent avail adj1
      have hperm1 : (keysOf b1 ++ (extendAdj avail adj1 tile.adjacent).1 ++
          (extendAdj avail adj1 tile.adjacent).2).Perm (keysOf b ++ avail ++ adj) := by
        rw [List.append_assoc]
        refine (List.Perm.append_left _ hext).trans ?_
        rw [hkeys1, List.append_assoc]
        have hmid : (([t] ++ (avail ++ adj1)) : List Nat).Perm (avail ++ adj) := by
          have h1 : (([t] ++ (avail ++ adj1)) : List Nat) = t :: (avail ++ adj1) := rfl
          rw [h1]
          refine (List.perm_middle).symm.trans ?_
          exact List.Perm.append_left avail hadjperm.symm
        refine (List.Perm.append_left (keysOf b) hmid).trans ?_
        rw [List.append_assoc]
      have hnd1 : (keysOf b1 ++ (extendAdj avail adj1 tile.adjacent).1 ++
          (extendAdj avail adj1 tile.adjacent).2).Nodup := hperm1.nodup_iff.mpr hnd
      obtain ⟨hpermrec, hbcrec⟩ := ih b1 rng1 _ _ b' rng' avail' adj' hrec hnd1 hcount1
      exact ⟨hpermrec.trans hperm1, hbcrec⟩

theorem mergeLoop_count (ops : SphereOps K) (config : TectonicsConfiguration K)
    (ps : ParticleSphere K) (small : PlateBuilder K) :
    ∀ (entries : List (Nat × Nat)) (target target' : PlateBuilder K),
      mergeLoop ops config ps small entries target = some target' →
      (keysOf target ++ entries.map Prod.fst).Nodup →
      builderCount target →
      keysOf target' = keysOf target ++ entries.map Prod.fst ∧
      builderCount target' ∧
      target'.plate.shape.point_masses.length =
        target.plate.shape.point_masses.length + entries.length := by
  intro entries
  induction entries with
  | nil =>
    intro target target' h _ hbc
    unfold mergeLoop at h
    simp only [List.foldlM_nil] at h
    cases h
    exact ⟨by simp, hbc, by simp⟩
  | cons e rest ih =>
    intro target target' h hnd hbc
    unfold mergeLoop at h
    rw [List.foldlM_cons] at h
    obtain ⟨t1, hm, hrest⟩ := Option.bind_eq_some.mp h
    have hrest2 : mergeLoop ops config ps small rest t1 = some target' := hrest
    obtain ⟨pm, tile, springs1, hq, htile, hsp, hpms, hspr, hmapeq, _⟩ :=
      mergePointMass_eq _ _ _ _ _ _ _ hm
    have hfresh : e.1 ∉ keysOf target := by
      simp only [List.map_cons] at hnd
      rcases List.nodup_append.mp hnd with ⟨-, -, hdisj⟩
      intro hk
      exact hdisj hk (List.mem_cons_self _ _)
    have hkeys1 : keysOf t1 = keysOf target ++ [e.1] := by
      unfold keysOf
      rw [hmapeq, insertA_fresh _ _ _ hfresh, List.map_append]
      rfl
    have hcount1 : builderCount t1 := by
      unfold builderCount
      rw [hmapeq, insertA_fresh _ _ _ hfresh, hpms]
      simp only [List.length_append, List.length_cons, List.length_nil]
      unfold builderCount at hbc
      omega
    have hlen1 : t1.plate.shape.point_masses.length =
        target.plate.shape.point_masses.length + 1 := by
      rw [hpms]
      simp
    have hshape : (keysOf target ++ [e.1]) ++ rest.map Prod.fst =
        keysOf target ++ (e.1 :: rest.map Prod.fst) := by
      rw [List.append_assoc]
      rfl
    have hnd1 : (keysOf t1 ++ rest.map Prod.fst).Nodup := by
      rw [hkeys1, hshape]
      simpa [List.map_cons] using hnd
    obtain ⟨hk, hc, hl⟩ := ih t1 target' hrest2 hnd1 hcount1
    refine ⟨?_, hc, ?_⟩
    · rw [hk, hkeys1, hshape]
      rfl
    · rw [hl, hlen1]
      simp only [List.length_cons]
      omega

theorem perm_append_swap3 {α : Type} (A B C : List α) :
    (A ++ (B ++ C)).Perm (B ++ (A ++ C)) := by
  rw [← List.append_assoc, ← List.append_assoc]
  exact List.Perm.append_right C List.perm_append_comm

theorem join_map_set_perm {α β : Type} (f : α → List β) :
    ∀ (l : List α) (i : Nat) (x y : α), l[i]? = some x →
      (f x ++ ((l.set i y).map f).flatten).Perm (f y ++ (l.map f).flatten) := by
  intro l
  induction l with
  | nil => intro i x y h; simp at h
  | cons a rest ih =>
    intro i x y h
    cases i with
    | zero =>
      simp only [List.getElem?_cons_zero, Option.some.injEq] at h
      subst h
      simp only [List.set_cons_zero, List.map_cons, List.flatten_cons]
      exact perm_append_swap3 _ _ _
    | succ n =>
      simp only [List.getElem?_cons_succ] at h
      simp only [List.set_cons_succ, List.map_cons, List.flatten_cons]
      have hih := ih n x y h
      refine (perm_append_swap3 _ _ _).trans ?_
      refine (List.Perm.append_left (f a) hih).trans ?_
      exact perm_append_swap3 _ _ _

/-- The assembly-loop invariant: the tiles recorded in the builders'
back-reference maps, the available set and the frontier together are a
permutation of all tile indices, and every builder has exactly one map entry
per point mass. -/
def stInv (tc : Nat) (st : AsmState K) : Prop :=
  ((st.plate_builders.map keysOf).flatten ++ st.available_tiles ++
    st.adjacent_tiles).Perm (List.range tc) ∧
  ∀ b ∈ st.plate_builders, builderCount b

theorem reseed_perm (tc : Nat) (orders : HashOrders) (hc1 : Nat)
    (avail2 av ad W : List Nat)
    (hset : ∀ (n : Nat) (l : List Nat), (orders.setOrder n l).Perm l)
    (hres : (avail2 = [] ∧ av = [] ∧ ad = []) ∨
      (∃ (i s : Nat), (orders.setOrder hc1 avail2)[i]? = some s ∧
        av = avail2.erase s ∧ ad = [s]))
    (hmaster : (W ++ avail2).Perm (List.range tc)) :
    (W ++ av ++ ad).Perm (List.range tc) := by
  rcases hres with ⟨rfl, rfl, rfl⟩ | ⟨i, s, hgs, rfl, rfl⟩
  · simpa using hmaster
  · have hsmem : s ∈ avail2 := (hset hc1 avail2).mem_iff.mp (List.getElem?_mem hgs)
    have h1 : ((avail2.erase s) ++ [s]).Perm avail2 :=
      (List.perm_append_singleton s _).trans (List.perm_cons_erase hsmem).symm
    rw [List.append_assoc]
    exact (List.Perm.append_left W h1).trans hmaster

theorem merge_perm_step {α : Type} (J Jset KT KT1 E Kb X R : List α)
    (hjs : (KT ++ Jset).Perm (KT1 ++ J)) (hk : KT1 = KT ++ E)
    (hE : E.Perm Kb) (hm : (J ++ (Kb ++ X)).Perm R) :
    (Jset ++ X).Perm R := by
  subst hk
  rw [List.append_assoc] at hjs
  have hJset : Jset.Perm (E ++ J) := (List.perm_append_left_iff _).mp hjs
  have s1 : ((E ++ J) ++ X).Perm ((Kb ++ J) ++ X) :=
    List.Perm.append_right X (List.Perm.append_right J hE)
  have s2 : ((Kb ++ J) ++ X).Perm (J ++ (Kb ++ X)) := by
    rw [List.append_assoc]
    exact perm_append_swap3 _ _ _
  exact (List.Perm.append_right X hJset).trans (s1.trans (s2.trans hm))

theorem assembleStep_inv [FloorRing K] (ops : SphereOps K)
    (config : TectonicsConfiguration K) (ps : ParticleSphere K)
    (orders : HashOrders) (st st' : AsmState K)
    (hset : ∀ (n : Nat) (l : List Nat), (orders.setOrder n l).Perm l)
    (hmap : ∀ (n : Nat) (l : List (Nat × Nat)), (orders.mapOrder n l).Perm l)
    (h : assembleStep ops config ps orders st = some st')
    (hinv : stInv ps.tiles.length st) : stInv ps.tiles.length st' := by
  obtain ⟨hperm, hcount⟩ := hinv
  have hndAll : ((st.plate_builders.map keysOf).flatten ++ st.available_tiles ++
      st.adjacent_tiles).Nodup := hperm.nodup_iff.mpr (List.nodup_range _)
  have hndAD : (st.available_tiles ++ st.adjacent_tiles).Nodup := by
    rw [List.append_assoc] at hndAll
    exact hndAll.of_append_right
  unfold assembleStep at h
  split at h
  · exact Option.noConfusion h
  · rename_i pair4 b rng2 available1 adjacent1 hgrow
    split at h
    · exact Option.noConfusion h
    · rename_i pair2 builders1 hc1 hplace
      obtain ⟨-, -, hb1, hres⟩ := reseedState_eq _ _ _ _ _ _ _ _ h
      have hndgrow : (keysOf (PlateBuilder.new
          (Plate.random ops (stepPlateType config ps st) st.rng).1) ++
          st.available_tiles ++ st.adjacent_tiles).Nodup := hndAD
      have hb0c : builderCount (PlateBuilder.new
          (Plate.random ops (stepPlateType config ps st) st.rng).1) := rfl
      obtain ⟨hgp, hbc⟩ := growPlate_count ops config ps
        (stepPlateType config ps st) _ _ _ _ _ _ _ _ _ hgrow hndgrow hb0c
      have hgp' : ((keysOf b ++ available1) ++ adjacent1).Perm
          (st.available_tiles ++ st.adjacent_tiles) := hgp
      rw [List.append_assoc] at hperm hgp'
      have hmaster0 : ((st.plate_builders.map keysOf).flatten ++
          (keysOf b ++ (available1 ++ adjacent1))).Perm
          (List.range ps.tiles.length) :=
        (List.Perm.append_left _ hgp').trans hperm
      rcases placeBuilder_eq ops config ps orders st.plate_builders st.hc b _
          hplace with
        ⟨hge, hre⟩ | ⟨hlt, hempB, hre⟩ |
        ⟨hlt, hneB, pm0, ci, target, target1, hpm0, hci, htgt, hml, hre⟩
      · simp only [Prod.mk.injEq] at hre
        obtain ⟨hb1e, hh1e⟩ := hre
        subst hb1e
        subst hh1e
        constructor
        · rw [hb1]
          simp only [List.map_append, List.flatten_append, List.map_cons,
            List.map_nil, List.flatten_cons, List.flatten_nil, List.append_nil]
          refine reseed_perm ps.tiles.length orders st.hc
            (available1 ++ adjacent1) st'.available_tiles st'.adjacent_tiles
            _ hset hres ?_
          rw [List.append_assoc]
          exact hmaster0
        · intro x hx
          rw [hb1] at hx
          rcases List.mem_append.mp hx with hmem | hmem
          · exact hcount x hmem
          · rw [List.mem_singleton.mp hmem]
            exact hbc
      · simp only [Prod.mk.injEq] at hre
        obtain ⟨hb1e, hh1e⟩ := hre
        subst hb1e
        subst hh1e
        have hmap0 : b.tile_to_point_mass = [] :=
          List.length_eq_zero.mp (by rw [hbc, hempB]; rfl)
        have hkb : keysOf b = [] := by unfold keysOf; rw [hmap0]; rfl
        rw [hkb] at hmaster0
        simp only [List.nil_append] at hmaster0
        constructor
        · rw [hb1]
          exact reseed_perm ps.tiles.length orders st.hc
            (available1 ++ adjacent1) st'.available_tiles st'.adjacent_tiles
            _ hset hres hmaster0
        · intro x hx
          rw [hb1] at hx
          exact hcount x hx
      · simp only [Prod.mk.injEq] at hre
        obtain ⟨hb1e, hh1e⟩ := hre
        subst hb1e
        subst hh1e
        have htmem : target ∈ st.plate_builders := List.getElem?_mem htgt
        have hbcT : builderCount target := hcount target htmem
        have hE : ((orders.mapOrder st.hc b.tile_to_point_mass).map
            Prod.fst).Perm (keysOf b) :=
          (hmap st.hc b.tile_to_point_mass).map Prod.fst
        have hndMaster : ((st.plate_builders.map keysOf).flatten ++
            (keysOf b ++ (available1 ++ adjacent1))).Nodup :=
          hmaster0.nodup_iff.mpr (List.nodup_range _)
        have hsubT : List.Sublist (keysOf target)
            ((st.plate_builders.map keysOf).flatten) :=
          List.sublist_flatten_of_mem (List.mem_map_of_mem keysOf htmem)
        have hndTKb : (keysOf target ++ keysOf b).Nodup :=
          hndMaster.sublist (List.Sublist.append hsubT
            (List.sublist_append_left _ _))
        have hndTE : (keysOf target ++
            (orders.mapOrder st.hc b.tile_to_point_mass).map Prod.fst).Nodup :=
          ((List.Perm.append_left (keysOf target) hE).nodup_iff).mpr hndTKb
        obtain ⟨hkT1, hbcT1, -⟩ := mergeLoop_count ops config ps b
          (orders.mapOrder st.hc b.tile_to_point_mass) target target1 hml
          hndTE hbcT
        have hjs := join_map_set_perm keysOf st.plate_builders ci target
          target1 htgt
        constructor
        · rw [hb1]
          refine reseed_perm ps.tiles.length orders (st.hc + 1)
            (available1 ++ adjacent1) st'.available_tiles st'.adjacent_tiles
            _ hset hres ?_
          exact merge_perm_step ((st.plate_builders.map keysOf).flatten) _
            (keysOf target) (keysOf target1) _ (keysOf b) _ _ hjs hkT1 hE
            hmaster0
        · intro x hx
          rw [hb1] at hx
          rcases List.mem_or_eq_of_mem_set hx with hmem | hmem
          · exact hcount x hmem
          · rw [hmem]
            exact hbcT1

theorem assembleLoop_inv [FloorRing K] (ops : SphereOps K)
    (config : TectonicsConfiguration K) (ps : ParticleSphere K)
    (orders : HashOrders)
    (hset : ∀ (n : Nat) (l : List Nat), (orders.setOrder n l).Perm l)
    (hmap : ∀ (n : Nat) (l : List (Nat × Nat)), (orders.mapOrder n l).Perm l) :
    ∀ (fuel : Nat) (st : AsmState K) (builders : List (PlateBuilder K)),
      assembleLoop ops config ps orders fuel st = some builders →
      stInv ps.tiles.length st →
      ((builders.map keysOf).flatten).Perm (List.range ps.tiles.length) ∧
      ∀ b ∈ builders, builderCount b := by
  intro fuel
  induction fuel with
  | zero =>
    intro st builders h _
    exact Option.noConfusion h
  | succ fuel ih =>
    intro st builders h hinv
    unfold assembleLoop at h
    split at h
    · split at h
      · exact Option.noConfusion h
      · rename_i st1 hstep
        exact ih st1 builders h
          (assembleStep_inv ops config ps orders st st1 hset hmap hstep hinv)
    · next hcond =>
      injection h with h'
      subst h'
      obtain ⟨hperm, hcnt⟩ := hinv
      push_neg at hcond
      obtain ⟨hav, had⟩ := hcond
      have hav' : st.available_tiles = [] :=
        List.length_eq_zero.mp (Nat.le_zero.mp hav)
      have had' : st.adjacent_tiles = [] :=
        List.length_eq_zero.mp (Nat.le_zero.mp had)
      rw [hav', had'] at hperm
      simp only [List.append_nil] at hperm
      exact ⟨hperm, hcnt⟩

theorem randomRange_lt (r : Rng K) (n i : Nat) (r' : Rng K)
    (h : r.randomRange n = some (i, r')) : i < n := by
  unfold Rng.randomRange at h
  split at h
  · exact Option.noConfusion h
  · next hn =>
    simp only [Option.some.injEq, Prod.mk.injEq] at h
    obtain ⟨h1, -⟩ := h
    rw [← h1]
    exact Nat.mod_lt _ (Nat.pos_of_ne_zero hn)

theorem initState_stInv (ps : ParticleSphere K) (rng : Rng K) (st0 : AsmState K)
    (h0 : initState ps rng = some st0) : stInv ps.tiles.length st0 := by
  obtain ⟨hb, -, -, s, rng1, hr, hav, had⟩ := initState_eq ps rng st0 h0
  have hslt : s < ps.tiles.length := randomRange_lt _ _ _ _ hr
  constructor
  · rw [hb, hav, had]
    simp only [List.map_nil, List.flatten_nil, List.nil_append]
    exact (List.perm_append_singleton _ _).trans
      (List.perm_cons_erase (List.mem_range.mpr hslt)).symm
  · intro b hbmem
    rw [hb] at hbmem
    simp at hbmem

/-- C2 (amended): the claimed equality holds at the END of assembly but not
after every intermediate merge (mid-run the builders only hold the tiles taken
so far — see the separate counterexample theorem): whenever the assembly loop
of `Tectonics::from_config` terminates normally — under hash-iteration
oracles that return permutations of the container contents, as the real `std`
hash containers do — the sum of the point-mass counts over all surviving
plate builders equals the tile count, so the final
`assert_eq!(point_mass_count, particle_sphere.tiles.len())` at tectonics.rs
line 273 can never fire on a run that reaches it. -/
theorem c2_point_mass_total [FloorRing K] (ops : SphereOps K)
    (config : TectonicsConfiguration K) (ps : ParticleSphere K) (rng : Rng K)
    (orders : HashOrders) (fuel : Nat) (st0 : AsmState K)
    (builders : List (PlateBuilder K))
    (hset : ∀ (n : Nat) (l : List Nat), (orders.setOrder n l).Perm l)
    (hmap : ∀ (n : Nat) (l : List (Nat × Nat)), (orders.mapOrder n l).Perm l)
    (h0 : initState ps rng = some st0)
    (h : assembleLoop ops config ps orders fuel st0 = some builders) :
    (builders.map (fun pb => pb.plate.shape.point_masses.length)).sum =
      ps.tiles.length := by
  obtain ⟨hperm, hcnt⟩ := assembleLoop_inv ops config ps orders hset hmap fuel
    st0 builders h (initState_stInv ps rng st0 h0)
  have hlen : ((builders.map keysOf).flatten).length = ps.tiles.length := by
    rw [hperm.length_eq, List.length_range]
  rw [List.length_flatten, List.map_map] at hlen
  rw [← hlen]
  apply congrArg
  apply List.map_congr_left
  intro pb hpb
  have hcc : pb.tile_to_point_mass.length =
      pb.plate.shape.point_masses.length := hcnt pb hpb
  simp only [Function.comp_apply, keysOf, List.length_map]
  exact hcc.symm

/-- Witness for the amended C2 theorem: a concrete four-tile run in which the
loop terminates and the surviving builders hold all four point masses. -/
theorem c2_point_mass_total_witness :
    ((assembleLoop ratOps config4 sphere4 idOrders 10
        ⟨{ zeroRng with k := 1 }, 0, 0, 0, [1, 2, 3], [0], []⟩).map
      (fun builders =>
        (builders.map (fun pb => pb.plate.shape.point_masses.length)).sum))
    = some sphere4.tiles.length := by
  cases hA : assembleLoop ratOps config4 sphere4 idOrders 10
      ⟨{ zeroRng with k := 1 }, 0, 0, 0, [1, 2, 3], [0], []⟩ with
  | none =>
    have hs : (assembleLoop ratOps config4 sphere4 idOrders 10
        ⟨{ zeroRng with k := 1 }, 0, 0, 0, [1, 2, 3], [0], []⟩).isSome = true := by
      decide
    rw [hA] at hs
    exact Bool.noConfusion hs
  | some builders =>
    have htot := c2_point_mass_total ratOps config4 sphere4 zeroRng idOrders 10
      ⟨{ zeroRng with k := 1 }, 0, 0, 0, [1, 2, 3], [0], []⟩ builders
      (fun n l => List.Perm.refl l) (fun n l => List.Perm.refl l) rfl hA
    rw [Option.map_some', htot]

/-- Witness for C10: on the concrete three-tile sphere the very first
assembly step generates a major plate (majors become 1, minors stay 0). -/
theorem c10_first_plate_major_witness :
    ((assembleStep ratOps config3 sphere3 idOrders
        ⟨{ zeroRng with k := 1 }, 0, 0, 0, [1, 2], [0], []⟩).map
      (fun st => (st.generated_majors, st.generated_minors))) = some (1, 0) := by
  cases hA : assembleStep ratOps config3 sphere3 idOrders
      ⟨{ zeroRng with k := 1 }, 0, 0, 0, [1, 2], [0], []⟩ with
  | none =>
    have hs : (assembleStep ratOps config3 sphere3 idOrders
        ⟨{ zeroRng with k := 1 }, 0, 0, 0, [1, 2], [0], []⟩).isSome = true := by
      decide
    rw [hA] at hs
    exact Bool.noConfusion hs
  | some st1 =>
    obtain ⟨-, -, hM, hm⟩ := c10_first_plate_major ratOps config3 sphere3
      idOrders ⟨{ zeroRng with k := 1 }, 0, 0, 0, [1, 2], [0], []⟩ st1 rfl rfl hA
    rw [Option.map_some', hM, hm]

end Suz
